import Mathlib

/-!
Shallow embedding of the `rust_figma_renderer` crate (kiwi.rs, nodes.rs,
spatial.rs, tiles.rs, api.rs) and proofs about it.

Modelling conventions:
* bytes are `Nat` values (always `< 256` when produced by real slices; the
  readers only ever mask with `&&& 0x7F` etc., so no boundedness hypotheses
  are needed for the properties proved here);
* Rust `u64` arithmetic is `Nat` with explicit `% 2 ^ 64` and the release-mode
  masked shift (`shift % 64`) where overflow can occur;
* `f64` document geometry (coordinates, sizes, viewports) is embedded as `ℚ`,
  the standard exact idealization of the float arithmetic in tiles.rs and
  spatial.rs, all of which is `+ * / floor ceil` and comparisons;
* `f32` values decoded from opaque blobs are carried as their 32-bit patterns
  (`Nat`), since no claim depends on their numeric interpretation;
* fallible Rust functions returning `Result<T, FigmaError>` become
  `Except FigmaError T`; a Rust panic (slice indexing out of range) is made
  explicit through the `POutcome` type where a claim depends on it.
-/

namespace FigmaRenderer

/-- Error vocabulary of the crate (`lib.rs`, `enum FigmaError`); `IoError`
carries just the message of the underlying error. -/
inductive FigmaError where
  | InvalidHeader
  | DecompressionError (msg : String)
  | SchemaError (msg : String)
  | DecodeError (msg : String)
  | NodeNotFound (id : String)
  | UnsupportedNodeType (name : String)
  | IoError (msg : String)
  deriving DecidableEq, Repr

/-- Accumulating loop of `read_varint` / `read_varint_at` (kiwi.rs):
read 7-bit groups, little-endian, MSB continuation; the result is a `u64`,
accumulated with the release-mode masked shift. The loop consumes exactly one
byte per iteration, so the wrapper's fuel of `data.length - pos` makes the
fuel-out case coincide with reading past the end of the data. Returns the
value and the new position. -/
def readVarintAux (data : List Nat) : Nat → Nat → Nat → Nat →
    Except FigmaError (Nat × Nat)
  | 0, _, _, _ => .error (.DecodeError "Unexpected end of data")
  | fuel + 1, pos, result, shift =>
    match data[pos]? with
    | none => .error (.DecodeError "Unexpected end of data")
    | some byte =>
      let result2 := result ||| (((byte &&& 0x7F) <<< (shift % 64)) % 2 ^ 64)
      if byte &&& 0x80 = 0 then .ok (result2, pos + 1)
      else readVarintAux data fuel (pos + 1) result2 (shift + 7)

/-- The varint reader `read_varint_at` (kiwi.rs): value and new position. -/
def readVarintAt (data : List Nat) (pos : Nat) : Except FigmaError (Nat × Nat) :=
  readVarintAux data (data.length - pos) pos 0 0

/-- Every run of `readVarintAux` with enough fuel either succeeds having
consumed at least one byte and without running past the end, or fails with
the truncation `DecodeError`. -/
theorem readVarintAux_shape :
    ∀ fuel data pos r s, data.length - pos ≤ fuel →
      (∃ v p2, readVarintAux data fuel pos r s = .ok (v, p2) ∧
        pos < p2 ∧ p2 ≤ data.length) ∨
      readVarintAux data fuel pos r s =
        .error (.DecodeError "Unexpected end of data") := by
  intro fuel
  induction fuel with
  | zero => intro data pos r s hk; exact Or.inr rfl
  | succ n ih =>
    intro data pos r s hk
    rw [readVarintAux]
    cases h : data[pos]? with
    | none => exact Or.inr rfl
    | some byte =>
      have hlt : pos < data.length := by
        by_contra hge
        rw [List.getElem?_eq_none (by omega)] at h
        exact Option.noConfusion h
      by_cases hb : byte &&& 0x80 = 0
      · simp only [hb, if_pos rfl]
        exact Or.inl ⟨_, _, rfl, Nat.lt_succ_self pos, by omega⟩
      · simp only [if_neg hb]
        rcases ih data (pos + 1) _ _ (by omega) with ⟨v, p2, heq, hp, hle⟩ | herr
        · exact Or.inl ⟨v, p2, heq, by omega, hle⟩
        · exact Or.inr herr

/-- Shape of `readVarintAt`, specialized from `readVarintAux_shape`. -/
theorem readVarintAt_shape (data : List Nat) (pos : Nat) :
    (∃ v p2, readVarintAt data pos = .ok (v, p2) ∧
      pos < p2 ∧ p2 ≤ data.length) ∨
    readVarintAt data pos = .error (.DecodeError "Unexpected end of data") :=
  readVarintAux_shape (data.length - pos) data pos 0 0 le_rfl


/-- The float reader `read_float_at` (kiwi.rs). A first byte of `0` yields
`+0.0` (bit pattern `0`); otherwise three more bytes are read, composed
big-endian and rotated left by 23 bits. The decoded `f32` is carried as its
32-bit pattern. Returns the bit pattern and the new position. -/
def readFloatAt (data : List Nat) (pos : Nat) : Except FigmaError (Nat × Nat) :=
  match data[pos]? with
  | none => .error (.DecodeError "Unexpected end of data")
  | some first =>
    if first = 0 then .ok (0, pos + 1)
    else if data.length < pos + 1 + 3 then
      .error (.DecodeError "Unexpected end of data")
    else
      let b1 := data.getD (pos + 1) 0
      let b2 := data.getD (pos + 2) 0
      let b3 := data.getD (pos + 3) 0
      let w := ((first <<< 24) ||| (b1 <<< 16) ||| (b2 <<< 8) ||| b3) % 2 ^ 32
      let bits := ((w <<< 23) ||| (w >>> 9)) % 2 ^ 32
      .ok (bits, pos + 4)

/-- The string reader `read_string_at` (kiwi.rs): scan to the first `0x00`
byte (or the end of the data), return the scanned bytes and the position past
the terminator. It cannot fail. -/
def readStringBytes (data : List Nat) (pos : Nat) : List Nat × Nat :=
  let tail := (data.drop pos).takeWhile (fun b => b ≠ 0)
  (tail, pos + tail.length + 1)

/-- Stand-in for Rust's lossy UTF-8 conversion of the scanned bytes; the
precise character-level content is irrelevant to every claim, only equality
of byte sequences matters, so bytes are rendered one character per byte. -/
def bytesToString (bs : List Nat) : String :=
  String.mk (bs.map Char.ofNat)

/-- The string reader `read_string_at` (kiwi.rs) packaged with its `Result`
signature (the body has no failing path). -/
def readStringAt (data : List Nat) (pos : Nat) : Except FigmaError (String × Nat) :=
  let (bs, p2) := readStringBytes data pos
  .ok (bytesToString bs, p2)

/-- Exact rational value of an IEEE-754 binary32 bit pattern (used where the
Rust code widens a decoded `f32` to `f64`): NaN and the infinities, which no
claim exercises, are mapped to `0`. -/
def f32BitsToRat (bits : Nat) : ℚ :=
  let sign : ℚ := if bits / 2 ^ 31 % 2 = 1 then -1 else 1
  let ex : ℕ := bits / 2 ^ 23 % 2 ^ 8
  let man : ℕ := bits % 2 ^ 23
  if ex = 0 then sign * (man : ℚ) / 2 ^ 149
  else if ex = 255 then 0
  else sign * (((2 ^ 23 + man : ℕ)) : ℚ) * 2 ^ ex / 2 ^ 150

/-- Stand-in for Rust's `Display` rendering of a decoded `f32` in
`format!` (kiwi.rs vector decoding): the shortest-round-trip decimal printer
is not reproduced; an injective rendering of the bit pattern is used, which
is sound for every claim proved here (none depends on the digits). -/
def f32Repr (bits : Nat) : String :=
  toString bits

/-- Shape of `readFloatAt`: success advances the position by 1 or 4 without
leaving the data, and the only failure is the truncation `DecodeError`. -/
theorem readFloatAt_shape (data : List Nat) (pos : Nat) :
    (∃ v p2, readFloatAt data pos = .ok (v, p2) ∧ pos < p2 ∧ p2 ≤ data.length) ∨
    readFloatAt data pos = .error (.DecodeError "Unexpected end of data") := by
  rw [readFloatAt]
  cases h : data[pos]? with
  | none => exact Or.inr rfl
  | some first =>
    have hlt : pos < data.length := by
      by_contra hge
      rw [List.getElem?_eq_none (by omega)] at h
      exact Option.noConfusion h
    by_cases h0 : first = 0
    · simp only [h0, if_pos rfl]
      exact Or.inl ⟨_, _, rfl, Nat.lt_succ_self pos, by omega⟩
    · simp only [if_neg h0]
      by_cases hlen : data.length < pos + 1 + 3
      · simp only [if_pos hlen]
        exact Or.inr (by simp)
      · simp only [if_neg hlen]
        exact Or.inl ⟨_, _, rfl, by omega, by omega⟩

/-- Color struct of api.rs (`ColorInfo`), RGBA bytes. -/
structure ColorInfo where
  r : Nat
  g : Nat
  b : Nat
  a : Nat
  deriving DecidableEq, Repr

/-- Gradient stop of api.rs (`GradientStopInfo`); the position is the decoded
`f32` carried as its bit pattern. -/
structure GradientStopInfo where
  position : Nat
  color : ColorInfo
  deriving DecidableEq, Repr

/-- Paint struct of api.rs (`PaintInfo`); `opacity` is the decoded `f32`
carried as its bit pattern. -/
structure PaintInfo where
  paintType : String
  color : Option ColorInfo
  gradientStops : List GradientStopInfo
  opacity : Nat
  blendMode : String
  deriving DecidableEq, Repr

/-- Effect struct of api.rs (`EffectInfo`); float fields are decoded `f32`
bit patterns. -/
structure EffectInfo where
  effectType : String
  visible : Bool
  radius : Nat
  color : Option ColorInfo
  offsetX : Nat
  offsetY : Nat
  spread : Nat
  deriving DecidableEq, Repr

/-- Path data of api.rs (`PathData`). -/
structure PathData where
  commands : String
  fillRule : String
  deriving DecidableEq, Repr

/-- The `paint_type_name` table (kiwi.rs). -/
def paintTypeName (id : Nat) : String :=
  match id with
  | 0 => "solid"
  | 1 => "gradient_linear"
  | 2 => "gradient_radial"
  | 3 => "gradient_angular"
  | 4 => "gradient_diamond"
  | 5 => "image"
  | _ => "unknown"

/-- The `effect_type_name` table (kiwi.rs). -/
def effectTypeName (id : Nat) : String :=
  match id with
  | 0 => "drop_shadow"
  | 1 => "inner_shadow"
  | 2 => "layer_blur"
  | 3 => "background_blur"
  | _ => "unknown"

/-- The `blend_mode_name` table (kiwi.rs). -/
def blendModeName (id : Nat) : String :=
  match id with
  | 0 => "PASS_THROUGH"
  | 1 => "NORMAL"
  | 2 => "DARKEN"
  | 3 => "MULTIPLY"
  | 4 => "LINEAR_BURN"
  | 5 => "COLOR_BURN"
  | 6 => "LIGHTEN"
  | 7 => "SCREEN"
  | 8 => "LINEAR_DODGE"
  | 9 => "COLOR_DODGE"
  | 10 => "OVERLAY"
  | 11 => "SOFT_LIGHT"
  | 12 => "HARD_LIGHT"
  | 13 => "DIFFERENCE"
  | 14 => "EXCLUSION"
  | 15 => "HUE"
  | 16 => "SATURATION"
  | 17 => "COLOR"
  | 18 => "LUMINOSITY"
  | _ => "NORMAL"

/-- Gradient-stop loop of `decode_fill_paint_data` (kiwi.rs): for each stop a
float position then four raw RGBA bytes, the latter defaulting to
`(0,0,0,255)` past the end of the data. -/
def gradLoop (data : List Nat) : Nat → Nat → List GradientStopInfo →
    Except FigmaError (List GradientStopInfo × Nat)
  | 0, pos, acc => .ok (acc, pos)
  | n + 1, pos, acc =>
    match readFloatAt data pos with
    | .error e => .error e
    | .ok (position, pos2) =>
      let r := data.getD pos2 0
      let g := data.getD (pos2 + 1) 0
      let b := data.getD (pos2 + 2) 0
      let a := data.getD (pos2 + 3) 255
      gradLoop data n (pos2 + 4) (acc ++ [⟨position, ⟨r, g, b, a⟩⟩])

/-- Per-kind payload of a paint record in `decode_fill_paint_data` (kiwi.rs):
returns the optional solid color, the gradient stops, and the new position. -/
def paintPayload (data : List Nat) (pos ptype : Nat) :
    Except FigmaError (Option ColorInfo × List GradientStopInfo × Nat) :=
  if ptype = 0 then
    let r := data.getD pos 0
    let g := data.getD (pos + 1) 0
    let b := data.getD (pos + 2) 0
    let a := data.getD (pos + 3) 255
    .ok (some ⟨r, g, b, a⟩, [], pos + 4)
  else if 1 ≤ ptype ∧ ptype ≤ 4 then
    match readVarintAt data pos with
    | .error e => .error e
    | .ok (stopCount, pos2) =>
      match gradLoop data stopCount pos2 [] with
      | .error e => .error e
      | .ok (stops, pos3) => .ok (none, stops, pos3)
  else if ptype = 5 then
    match readStringAt data pos with
    | .error e => .error e
    | .ok (_, pos2) => .ok (none, [], pos2)
  else .ok (none, [], pos)

/-- Paint-record loop of `decode_fill_paint_data` (kiwi.rs). -/
def paintLoop (data : List Nat) : Nat → Nat → List PaintInfo →
    Except FigmaError (List PaintInfo)
  | 0, _, acc => .ok acc
  | n + 1, pos, acc =>
    match readVarintAt data pos with
    | .error e => .error e
    | .ok (ptype64, pos2) =>
      let ptype := ptype64 % 256
      match paintPayload data pos2 ptype with
      | .error e => .error e
      | .ok (color, stops, pos3) =>
        match readFloatAt data pos3 with
        | .error e => .error e
        | .ok (opacity, pos4) =>
          match readVarintAt data pos4 with
          | .error e => .error e
          | .ok (blend64, pos5) =>
            let paint : PaintInfo :=
              ⟨paintTypeName ptype, color, stops, opacity,
                blendModeName (blend64 % 256)⟩
            paintLoop data n pos5 (acc ++ [paint])

/-- `decode_fill_paint_data` (kiwi.rs): empty data decodes to no paints,
otherwise a varint count followed by that many paint records. -/
def decodeFillPaintData (data : List Nat) : Except FigmaError (List PaintInfo) :=
  if data = [] then .ok []
  else
    match readVarintAt data 0 with
    | .error e => .error e
    | .ok (count, pos) => paintLoop data count pos []

/-- Effect-record loop of `decode_effect_data` (kiwi.rs). -/
def effectLoop (data : List Nat) : Nat → Nat → List EffectInfo →
    Except FigmaError (List EffectInfo)
  | 0, _, acc => .ok acc
  | n + 1, pos, acc =>
    match readVarintAt data pos with
    | .error e => .error e
    | .ok (etype64, pos2) =>
      let etype := etype64 % 256
      let visible : Bool := data.getD pos2 1 != 0
      let pos3 := pos2 + 1
      match readFloatAt data pos3 with
      | .error e => .error e
      | .ok (radius, pos4) =>
        if etype = 0 ∨ etype = 1 then
          let r := data.getD pos4 0
          let g := data.getD (pos4 + 1) 0
          let b := data.getD (pos4 + 2) 0
          let a := data.getD (pos4 + 3) 255
          let pos5 := pos4 + 4
          match readFloatAt data pos5 with
          | .error e => .error e
          | .ok (ox, pos6) =>
            match readFloatAt data pos6 with
            | .error e => .error e
            | .ok (oy, pos7) =>
              match readFloatAt data pos7 with
              | .error e => .error e
              | .ok (spread, pos8) =>
                let eff : EffectInfo :=
                  ⟨effectTypeName etype, visible, radius, some ⟨r, g, b, a⟩,
                    ox, oy, spread⟩
                effectLoop data n pos8 (acc ++ [eff])
        else
          let eff : EffectInfo :=
            ⟨effectTypeName etype, visible, radius, none, 0, 0, 0⟩
          effectLoop data n pos4 (acc ++ [eff])

/-- `decode_effect_data` (kiwi.rs). -/
def decodeEffectData (data : List Nat) : Except FigmaError (List EffectInfo) :=
  if data = [] then .ok []
  else
    match readVarintAt data 0 with
    | .error e => .error e
    | .ok (count, pos) => effectLoop data count pos []

/-- Sequential read of `n` floats (the bodies of the moveto/lineto/cubicto/
quadto arms of `decode_vector_data`, kiwi.rs). -/
def readFloatsN (data : List Nat) : Nat → Nat → Except FigmaError (List Nat × Nat)
  | 0, pos => .ok ([], pos)
  | n + 1, pos =>
    match readFloatAt data pos with
    | .error e => .error e
    | .ok (v, pos2) =>
      match readFloatsN data n pos2 with
      | .error e => .error e
      | .ok (vs, pos3) => .ok (v :: vs, pos3)

/-- One emitted token group of `decode_vector_data` (kiwi.rs):
the opcode letter and its float arguments, each followed by a space. -/
def emitCmd (letter : String) (vals : List Nat) : String :=
  letter ++ " " ++ String.join (vals.map (fun v => f32Repr v ++ " "))

/-- Command loop of `decode_vector_data` (kiwi.rs). The loop consumes at
least one byte per iteration, so `data.length` fuel is always sufficient;
exhausted fuel returns the accumulator exactly like the end of the data. -/
def vecLoop (data : List Nat) : Nat → Nat → String → Except FigmaError String
  | 0, _, acc => .ok acc
  | fuel + 1, pos, acc =>
    if pos < data.length then
      let cmd := data.getD pos 0
      let pos1 := pos + 1
      match cmd with
      | 1 =>
        match readFloatsN data 2 pos1 with
        | .error e => .error e
        | .ok (vs, pos2) => vecLoop data fuel pos2 (acc ++ emitCmd "M" vs)
      | 2 =>
        match readFloatsN data 2 pos1 with
        | .error e => .error e
        | .ok (vs, pos2) => vecLoop data fuel pos2 (acc ++ emitCmd "L" vs)
      | 3 =>
        match readFloatsN data 6 pos1 with
        | .error e => .error e
        | .ok (vs, pos2) => vecLoop data fuel pos2 (acc ++ emitCmd "C" vs)
      | 4 =>
        match readFloatsN data 4 pos1 with
        | .error e => .error e
        | .ok (vs, pos2) => vecLoop data fuel pos2 (acc ++ emitCmd "Q" vs)
      | 5 => vecLoop data fuel pos1 (acc ++ "Z ")
      | _ => .ok acc
    else .ok acc

/-- `decode_vector_data` (kiwi.rs): a fill-rule byte, then opcode-tagged
commands until an end opcode, an unknown opcode, or the end of the data. -/
def decodeVectorData (data : List Nat) : Except FigmaError PathData :=
  if data = [] then .ok ⟨"", "nonzero"⟩
  else
    let fillRuleByte := data.getD 0 0
    let fillRule := if fillRuleByte = 1 then "evenodd" else "nonzero"
    match vecLoop data data.length 1 "" with
    | .error e => .error e
    | .ok commands => .ok ⟨commands.trim, fillRule⟩

/-- Shape of `readStringAt`: it always succeeds. -/
theorem readStringAt_shape (data : List Nat) (pos : Nat) :
    ∃ s p2, readStringAt data pos = .ok (s, p2) :=
  ⟨_, _, rfl⟩

/-- Shape of `readFloatsN`: either success or the truncation `DecodeError`. -/
theorem readFloatsN_shape (data : List Nat) :
    ∀ n pos, (∃ vs p2, readFloatsN data n pos = .ok (vs, p2)) ∨
      readFloatsN data n pos = .error (.DecodeError "Unexpected end of data") := by
  intro n
  induction n with
  | zero => intro pos; exact Or.inl ⟨[], pos, rfl⟩
  | succ k ih =>
    intro pos
    rw [readFloatsN]
    rcases readFloatAt_shape data pos with ⟨v, p2, heq, _, _⟩ | heq
    · simp only [heq]
      rcases ih p2 with ⟨vs, p3, heq2⟩ | heq2
      · simp only [heq2]; exact Or.inl ⟨v :: vs, p3, rfl⟩
      · simp only [heq2]; exact Or.inr (by simp)
    · simp only [heq]; exact Or.inr (by simp)

/-- Shape of `gradLoop`: either success or the truncation `DecodeError`. -/
theorem gradLoop_shape (data : List Nat) :
    ∀ n pos acc, (∃ stops p2, gradLoop data n pos acc = .ok (stops, p2)) ∨
      gradLoop data n pos acc = .error (.DecodeError "Unexpected end of data") := by
  intro n
  induction n with
  | zero => intro pos acc; exact Or.inl ⟨acc, pos, rfl⟩
  | succ k ih =>
    intro pos acc
    rw [gradLoop]
    rcases readFloatAt_shape data pos with ⟨v, p2, heq, _, _⟩ | heq
    · simp only [heq]; exact ih (p2 + 4) _
    · simp only [heq]; exact Or.inr (by simp)

/-- Shape of `paintPayload`: either success or the truncation `DecodeError`. -/
theorem paintPayload_shape (data : List Nat) (pos ptype : Nat) :
    (∃ c stops p2, paintPayload data pos ptype = .ok (c, stops, p2)) ∨
    paintPayload data pos ptype =
      .error (.DecodeError "Unexpected end of data") := by
  rw [paintPayload]
  by_cases h0 : ptype = 0
  · simp only [if_pos h0]; exact Or.inl ⟨_, _, _, rfl⟩
  · simp only [if_neg h0]
    by_cases h14 : 1 ≤ ptype ∧ ptype ≤ 4
    · simp only [if_pos h14]
      rcases readVarintAt_shape data pos with ⟨v, p2, heq, _, _⟩ | heq
      · simp only [heq]
        rcases gradLoop_shape data v p2 [] with ⟨stops, p3, heq2⟩ | heq2
        · simp only [heq2]; exact Or.inl ⟨_, _, _, rfl⟩
        · simp only [heq2]; exact Or.inr (by simp)
      · simp only [heq]; exact Or.inr (by simp)
    · simp only [if_neg h14]
      by_cases h5 : ptype = 5
      · simp only [if_pos h5]
        obtain ⟨s, p2, heq⟩ := readStringAt_shape data pos
        simp only [heq]
        exact Or.inl ⟨_, _, _, rfl⟩
      · simp only [if_neg h5]; exact Or.inl ⟨_, _, _, rfl⟩

/-- Shape of `paintLoop`: either success or the truncation `DecodeError`. -/
theorem paintLoop_shape (data : List Nat) :
    ∀ n pos acc, (∃ paints, paintLoop data n pos acc = .ok paints) ∨
      paintLoop data n pos acc =
        .error (.DecodeError "Unexpected end of data") := by
  intro n
  induction n with
  | zero => intro pos acc; exact Or.inl ⟨acc, rfl⟩
  | succ k ih =>
    intro pos acc
    rw [paintLoop]
    rcases readVarintAt_shape data pos with ⟨v, p2, heq, _, _⟩ | heq
    · simp only [heq]
      rcases paintPayload_shape data p2 (v % 256) with ⟨c, stops, p3, heq2⟩ | heq2
      · simp only [heq2]
        rcases readFloatAt_shape data p3 with ⟨op, p4, heq3, _, _⟩ | heq3
        · simp only [heq3]
          rcases readVarintAt_shape data p4 with ⟨bl, p5, heq4, _, _⟩ | heq4
          · simp only [heq4]; exact ih p5 _
          · simp only [heq4]; exact Or.inr (by simp)
        · simp only [heq3]; exact Or.inr (by simp)
      · simp only [heq2]; exact Or.inr (by simp)
    · simp only [heq]; exact Or.inr (by simp)

/-- Shape of `effectLoop`: either success or the truncation `DecodeError`. -/
theorem effectLoop_shape (data : List Nat) :
    ∀ n pos acc, (∃ effects, effectLoop data n pos acc = .ok effects) ∨
      effectLoop data n pos acc =
        .error (.DecodeError "Unexpected end of data") := by
  intro n
  induction n with
  | zero => intro pos acc; exact Or.inl ⟨acc, rfl⟩
  | succ k ih =>
    intro pos acc
    rw [effectLoop]
    rcases readVarintAt_shape data pos with ⟨v, p2, heq, _, _⟩ | heq
    · simp only [heq]
      rcases readFloatAt_shape data (p2 + 1) with ⟨rad, p4, heq2, _, _⟩ | heq2
      · simp only [heq2]
        by_cases hsh : v % 256 = 0 ∨ v % 256 = 1
        · simp only [if_pos hsh]
          rcases readFloatAt_shape data (p4 + 4) with ⟨ox, p6, heq3, _, _⟩ | heq3
          · simp only [heq3]
            rcases readFloatAt_shape data p6 with ⟨oy, p7, heq4, _, _⟩ | heq4
            · simp only [heq4]
              rcases readFloatAt_shape data p7 with ⟨sp, p8, heq5, _, _⟩ | heq5
              · simp only [heq5]; exact ih p8 _
              · simp only [heq5]; exact Or.inr (by simp)
            · simp only [heq4]; exact Or.inr (by simp)
          · simp only [heq3]; exact Or.inr (by simp)
        · simp only [if_neg hsh]; exact ih p4 _
      · simp only [heq2]; exact Or.inr (by simp)
    · simp only [heq]; exact Or.inr (by simp)

/-- Shape of `vecLoop`: either success or the truncation `DecodeError`. -/
theorem vecLoop_shape (data : List Nat) :
    ∀ fuel pos acc, (∃ s, vecLoop data fuel pos acc = .ok s) ∨
      vecLoop data fuel pos acc =
        .error (.DecodeError "Unexpected end of data") := by
  intro fuel
  induction fuel with
  | zero => intro pos acc; exact Or.inl ⟨acc, rfl⟩
  | succ k ih =>
    intro pos acc
    rw [vecLoop]
    by_cases hp : pos < data.length
    · simp only [if_pos hp]
      have hstep : ∀ m s2, (∃ s, (match readFloatsN data m (pos + 1) with
          | .error e => .error e
          | .ok (vs, pos2) => vecLoop data k pos2 (acc ++ emitCmd s2 vs)) = Except.ok s) ∨
          (match readFloatsN data m (pos + 1) with
          | .error e => .error e
          | .ok (vs, pos2) => vecLoop data k pos2 (acc ++ emitCmd s2 vs)) =
            Except.error (FigmaError.DecodeError "Unexpected end of data") := by
        intro m s2
        rcases readFloatsN_shape data m (pos + 1) with ⟨vs, p2, heq⟩ | heq
        · simp only [heq]; exact ih p2 _
        · simp only [heq]; exact Or.inr (by simp)
      match hc : data.getD pos 0 with
      | 1 => exact hstep 2 "M"
      | 2 => exact hstep 2 "L"
      | 3 => exact hstep 6 "C"
      | 4 => exact hstep 4 "Q"
      | 5 => exact ih (pos + 1) _
      | 0 => exact Or.inl ⟨acc, rfl⟩
      | (m + 6) => exact Or.inl ⟨acc, rfl⟩
    · simp only [if_neg hp]; exact Or.inl ⟨acc, rfl⟩

/-- C5 counterexample: on the input of ten continuation bytes followed by a
terminator, the varint reader consumes eleven bytes — more than the ten the
claim allows — and succeeds. -/
theorem C5_counterexample :
    readVarintAt (List.replicate 10 128 ++ [0]) 0 = .ok (0, 11) ∧ 10 < 11 - 0 := by
  constructor
  · rfl
  · omega

/-- C5 (amended): for every input byte slice and starting position the varint
reader is total: it either succeeds, consuming at least one byte and never
reading past the end of the slice, or returns the truncation `DecodeError`;
in particular it returns the `DecodeError` whenever the starting position is
at or past the end. There is no ten-byte cap on consumption. -/
theorem C5_varint_reader_total (data : List Nat) (pos : Nat) :
    ((∃ v p2, readVarintAt data pos = .ok (v, p2) ∧ pos < p2 ∧ p2 ≤ data.length) ∨
      readVarintAt data pos = .error (.DecodeError "Unexpected end of data")) ∧
    (data.length ≤ pos →
      readVarintAt data pos = .error (.DecodeError "Unexpected end of data")) := by
  refine ⟨readVarintAt_shape data pos, fun h => ?_⟩
  unfold readVarintAt
  rw [Nat.sub_eq_zero_of_le h]
  rfl

/-- C5 witness: the amended theorem applied at the empty slice. -/
theorem C5_witness :
    readVarintAt [] 0 = .error (.DecodeError "Unexpected end of data") :=
  (C5_varint_reader_total [] 0).2 (by decide)

/-- Shape of `decodeFillPaintData`: success or the truncation `DecodeError`. -/
theorem decodeFillPaintData_shape (data : List Nat) :
    (∃ paints, decodeFillPaintData data = .ok paints) ∨
    decodeFillPaintData data =
      .error (.DecodeError "Unexpected end of data") := by
  rw [decodeFillPaintData]
  by_cases h : data = []
  · simp only [if_pos h]; exact Or.inl ⟨[], rfl⟩
  · simp only [if_neg h]
    rcases readVarintAt_shape data 0 with ⟨v, p2, heq, _, _⟩ | heq
    · simp only [heq]; exact paintLoop_shape data v p2 []
    · simp only [heq]; exact Or.inr (by simp)

/-- Shape of `decodeEffectData`: success or the truncation `DecodeError`. -/
theorem decodeEffectData_shape (data : List Nat) :
    (∃ effects, decodeEffectData data = .ok effects) ∨
    decodeEffectData data =
      .error (.DecodeError "Unexpected end of data") := by
  rw [decodeEffectData]
  by_cases h : data = []
  · simp only [if_pos h]; exact Or.inl ⟨[], rfl⟩
  · simp only [if_neg h]
    rcases readVarintAt_shape data 0 with ⟨v, p2, heq, _, _⟩ | heq
    · simp only [heq]; exact effectLoop_shape data v p2 []
    · simp only [heq]; exact Or.inr (by simp)

/-- Shape of `decodeVectorData`: success or the truncation `DecodeError`. -/
theorem decodeVectorData_shape (data : List Nat) :
    (∃ p, decodeVectorData data = .ok p) ∨
    decodeVectorData data =
      .error (.DecodeError "Unexpected end of data") := by
  rw [decodeVectorData]
  by_cases h : data = []
  · simp only [if_pos h]; exact Or.inl ⟨_, rfl⟩
  · simp only [if_neg h]
    rcases vecLoop_shape data data.length 1 "" with ⟨s, heq⟩ | heq
    · simp only [heq]; exact Or.inl ⟨_, rfl⟩
    · simp only [heq]; exact Or.inr (by simp)

/-- C4 counterexample: the one-byte blob `[1]` announces one paint record but
is truncated before its kind; `decode_fill_paint_data` returns a
`DecodeError` rather than an empty collection, refuting the claim that the
pure decoders never return an error. -/
theorem C4_counterexample :
    decodeFillPaintData [1] = .error (.DecodeError "Unexpected end of data") := by
  rfl

/-- C4 (amended): the pure decoders are total — on every byte blob each one
either succeeds or fails with the truncation `DecodeError` (never any other
error and never a panic) — and each returns the empty collection (resp. the
empty path) on the empty blob; but they do fail, rather than returning an
empty collection, on blobs truncated inside a varint or float read. -/
theorem C4_decoders_on_malformed_blobs (data : List Nat) :
    ((∃ paints, decodeFillPaintData data = .ok paints) ∨
      decodeFillPaintData data = .error (.DecodeError "Unexpected end of data")) ∧
    ((∃ effects, decodeEffectData data = .ok effects) ∨
      decodeEffectData data = .error (.DecodeError "Unexpected end of data")) ∧
    ((∃ p, decodeVectorData data = .ok p) ∨
      decodeVectorData data = .error (.DecodeError "Unexpected end of data")) ∧
    decodeFillPaintData [] = .ok [] ∧
    decodeEffectData [] = .ok [] ∧
    decodeVectorData [] = .ok ⟨"", "nonzero"⟩ :=
  ⟨decodeFillPaintData_shape data, decodeEffectData_shape data,
    decodeVectorData_shape data, rfl, rfl, rfl⟩

/-- Outcome of a Rust computation that can also panic: the header check in
`FigFile::parse` (kiwi.rs) indexes `data[0..8]` and `data[0..9]` without a
length guard, and Rust slice indexing out of range panics, which this type
makes explicit. -/
inductive POutcome (α : Type) where
  | ok (a : α)
  | err (e : FigmaError)
  | panic
  deriving DecidableEq, Repr

/-- The magic bytes `fig-kiwi`. -/
def figMagic : List Nat := [102, 105, 103, 45, 107, 105, 119, 105]

/-- The magic bytes `fig-kiwie`. -/
def figMagicE : List Nat := [102, 105, 103, 45, 107, 105, 119, 105, 101]

/-- Header phase of `FigFile::parse` (kiwi.rs): `let header = &data[0..8]`
panics when the input is shorter than 8 bytes; the `fig-kiwie` guard slices
`&data[0..9]` and panics when the input is exactly 8 non-magic bytes; only
inputs of 9 or more bytes matching neither magic reach `InvalidHeader`.
Returns the header length and the encrypted flag on success. -/
def figParseHeader (data : List Nat) : POutcome (Nat × Bool) :=
  if data.length < 8 then .panic
  else if data.take 8 = figMagic then .ok (8, false)
  else if data.length < 9 then .panic
  else if data.take 9 = figMagicE then .ok (9, true)
  else .err .InvalidHeader

/-- C3: contrary to the claim, `FigFile::parse` does not return
`InvalidHeader` on every non-magic input: every input shorter than 8 bytes
(each such input is `data.take 7` for some `data`, in particular the empty
input) and the 8-byte input `not-kiwi` make the slice indexing panic; only
from 9 bytes on does a non-magic input produce `InvalidHeader`, while the
true magic is accepted. -/
theorem C3_header_rejection_panics (data : List Nat) :
    figParseHeader (data.take 7) = .panic ∧
    figParseHeader [] = .panic ∧
    figParseHeader [110, 111, 116, 45, 107, 105, 119, 105] = .panic ∧
    figParseHeader ([110, 111, 116, 45, 107, 105, 119, 105] ++ [0]) =
      .err .InvalidHeader ∧
    figParseHeader figMagic = .ok (8, false) := by
  have h : (data.take 7).length < 8 := by
    have := List.length_take 7 data
    omega
  refine ⟨?_, rfl, ?_, ?_, ?_⟩
  · rw [figParseHeader, if_pos h]
  · decide
  · decide
  · decide

/-- The `node_type_name` table (kiwi.rs). -/
def nodeTypeName (id : Nat) : String :=
  match id with
  | 0 => "DOCUMENT"
  | 1 => "CANVAS"
  | 2 => "FRAME"
  | 3 => "GROUP"
  | 4 => "VECTOR"
  | 5 => "BOOLEAN_OPERATION"
  | 6 => "STAR"
  | 7 => "LINE"
  | 8 => "ELLIPSE"
  | 9 => "REGULAR_POLYGON"
  | 10 => "RECTANGLE"
  | 11 => "TEXT"
  | 12 => "SLICE"
  | 13 => "COMPONENT"
  | 14 => "COMPONENT_SET"
  | 15 => "INSTANCE"
  | 16 => "STICKY"
  | 17 => "SHAPE_WITH_TEXT"
  | 18 => "CONNECTOR"
  | 19 => "SECTION"
  | _ => "UNKNOWN"

/-- The node struct of nodes.rs (`FigmaNode`). Its field defaults mirror the
Rust `#[derive(Default)]`: `false` for the boolean, `0` for every numeric
field, empty strings, vectors and options — in particular `visible = false`
and `opacity = 0`. -/
structure FigmaNode where
  id : String := ""
  parentId : Option String := none
  name : String := ""
  nodeType : String := ""
  visible : Bool := false
  opacity : ℚ := 0
  x : ℚ := 0
  y : ℚ := 0
  width : ℚ := 0
  height : ℚ := 0
  rotation : ℚ := 0
  children : List String := []
  fillPaintsData : List Nat := []
  strokePaintsData : List Nat := []
  effectsData : List Nat := []
  strokeWeight : ℚ := 0
  cornerRadius : ℚ := 0
  cornerRadii : List ℚ := [0, 0, 0, 0]
  vectorData : List Nat := []
  textData : List Nat := []
  fontName : String := ""
  fontSize : ℚ := 0
  layoutMode : String := ""
  primaryAxisSizing : String := ""
  counterAxisSizing : String := ""
  itemSpacing : ℚ := 0
  padding : List ℚ := [0, 0, 0, 0]
  deriving DecidableEq, Repr

/-- `FigmaNode::default()` as produced by the Rust `#[derive(Default)]`. -/
def FigmaNode.mkDefault : FigmaNode := {}

/-- The boolean reader `read_bool` (kiwi.rs). -/
def readBoolAt (data : List Nat) (pos : Nat) : Except FigmaError (Bool × Nat) :=
  match data[pos]? with
  | none => .error (.DecodeError "Unexpected end of data")
  | some b => .ok (b != 0, pos + 1)

/-- The bytes reader `read_bytes` (kiwi.rs): a varint length then that many
raw bytes. -/
def readBytesAt (data : List Nat) (pos : Nat) :
    Except FigmaError (List Nat × Nat) :=
  match readVarintAt data pos with
  | .error e => .error e
  | .ok (len, pos2) =>
    if data.length < pos2 + len then
      .error (.DecodeError "Unexpected end of data")
    else .ok ((data.drop pos2).take len, pos2 + len)

/-- The guid reader `read_guid` (kiwi.rs): two varints as `u32`, formatted
`session:local`. -/
def readGuidAt (data : List Nat) (pos : Nat) : Except FigmaError (String × Nat) :=
  match readVarintAt data pos with
  | .error e => .error e
  | .ok (session, pos2) =>
    match readVarintAt data pos2 with
    | .error e => .error e
    | .ok (localId, pos3) =>
      .ok (toString (session % 2 ^ 32) ++ ":" ++ toString (localId % 2 ^ 32), pos3)

/-- The parent-index reader `read_parent_index` (kiwi.rs): a guid then a
position string. -/
def readParentIndexAt (data : List Nat) (pos : Nat) :
    Except FigmaError ((Option String × String) × Nat) :=
  match readGuidAt data pos with
  | .error e => .error e
  | .ok (guid, pos2) =>
    match readStringAt data pos2 with
    | .error e => .error e
    | .ok (position, pos3) => .ok ((some guid, position), pos3)

/-- The node-type reader `read_node_type` (kiwi.rs). -/
def readNodeTypeAt (data : List Nat) (pos : Nat) :
    Except FigmaError (String × Nat) :=
  match readVarintAt data pos with
  | .error e => .error e
  | .ok (v, pos2) => .ok (nodeTypeName (v % 2 ^ 32), pos2)

/-- The enum reader `read_enum` (kiwi.rs): a varint as `u32` rendered as a
decimal string tag. -/
def readEnumAt (data : List Nat) (pos : Nat) : Except FigmaError (String × Nat) :=
  match readVarintAt data pos with
  | .error e => .error e
  | .ok (v, pos2) => .ok (toString (v % 2 ^ 32), pos2)

/-- A field definition from the parsed schema (kiwi.rs `FieldDef`). -/
structure FieldDef where
  name : String
  fieldType : Nat
  isArray : Bool
  deriving DecidableEq, Repr

/-- A field header produced by `next_field` (kiwi.rs `Field`). -/
structure KField where
  name : String
  fieldType : Nat
  arrayLength : Nat
  deriving DecidableEq, Repr

/-- State of the `KiwiDecoder` (kiwi.rs): the message bytes, the cursor, and
the schema-derived field definitions. -/
structure DecoderSt where
  data : List Nat
  pos : Nat
  fieldDefs : List FieldDef
  deriving DecidableEq, Repr

/-- `KiwiDecoder::next_field` (kiwi.rs): end of data or a zero tag ends the
message; a nonzero tag indexes the 1-based field list, failing on an unknown
index; an array field is prefixed by a varint length. -/
def nextField (st : DecoderSt) : Except FigmaError (Option KField × DecoderSt) :=
  if st.data.length ≤ st.pos then .ok (none, st)
  else
    match readVarintAt st.data st.pos with
    | .error e => .error e
    | .ok (fieldIndex, pos2) =>
      if fieldIndex = 0 then .ok (none, { st with pos := pos2 })
      else
        match st.fieldDefs[fieldIndex - 1]? with
        | none =>
          .error (.DecodeError ("Unknown field index: " ++ toString fieldIndex))
        | some fd =>
          if fd.isArray then
            match readVarintAt st.data pos2 with
            | .error e => .error e
            | .ok (len, pos3) =>
              .ok (some ⟨fd.name, fd.fieldType, len⟩, { st with pos := pos3 })
          else .ok (some ⟨fd.name, fd.fieldType, 1⟩, { st with pos := pos2 })

/-- `KiwiDecoder::skip_message` (kiwi.rs): read tag varints until a zero tag,
skipping one varint per field. One iteration consumes at least one byte, so
the callers' fuel of the remaining data length is always sufficient; the
fuel-out value is never reached. -/
def skipMessage (data : List Nat) : Nat → Nat → Except FigmaError Nat
  | 0, _ => .error (.DecodeError "Unexpected end of data")
  | fuel + 1, pos =>
    match readVarintAt data pos with
    | .error e => .error e
    | .ok (fieldIndex, pos2) =>
      if fieldIndex = 0 then .ok pos2
      else
        match readVarintAt data pos2 with
        | .error e => .error e
        | .ok (_, pos3) => skipMessage data fuel pos3

/-- One element skip of `KiwiDecoder::skip_field` (kiwi.rs), by declared
primitive type. -/
def skipOne (data : List Nat) (ftype pos : Nat) : Except FigmaError Nat :=
  match ftype with
  | 0 =>
    match readBoolAt data pos with
    | .error e => .error e
    | .ok (_, pos2) => .ok pos2
  | 1 | 2 | 3 =>
    match readVarintAt data pos with
    | .error e => .error e
    | .ok (_, pos2) => .ok pos2
  | 4 =>
    match readFloatAt data pos with
    | .error e => .error e
    | .ok (_, pos2) => .ok pos2
  | 5 =>
    match readStringAt data pos with
    | .error e => .error e
    | .ok (_, pos2) => .ok pos2
  | 6 | 7 =>
    match readVarintAt data pos with
    | .error e => .error e
    | .ok (_, pos2) =>
      match readVarintAt data pos2 with
      | .error e => .error e
      | .ok (_, pos3) => .ok pos3
  | _ => skipMessage data (data.length - pos) pos

/-- The element loop of `KiwiDecoder::skip_field` (kiwi.rs). -/
def skipFieldLoop (data : List Nat) (ftype : Nat) : Nat → Nat →
    Except FigmaError Nat
  | 0, pos => .ok pos
  | n + 1, pos =>
    match skipOne data ftype pos with
    | .error e => .error e
    | .ok pos2 => skipFieldLoop data ftype n pos2

/-- `KiwiDecoder::skip_field` (kiwi.rs) on the decoder state. -/
def skipField (st : DecoderSt) (f : KField) : Except FigmaError DecoderSt :=
  match skipFieldLoop st.data f.fieldType f.arrayLength st.pos with
  | .error e => .error e
  | .ok pos2 => .ok { st with pos := pos2 }

/-- The guid loop of the `children` arm of `decode_node_change` (kiwi.rs). -/
def readGuidList (data : List Nat) : Nat → Nat → List String →
    Except FigmaError (List String × Nat)
  | 0, pos, acc => .ok (acc, pos)
  | n + 1, pos, acc =>
    match readGuidAt data pos with
    | .error e => .error e
    | .ok (g, pos2) => readGuidList data n pos2 (acc ++ [g])

/-- Four sequential float reads (the `rectangleCornerRadii` and `transform`
arms of `decode_node_change` widen each decoded `f32` to `f64`). -/
def readRatsN (data : List Nat) : Nat → Nat → Except FigmaError (List ℚ × Nat)
  | 0, pos => .ok ([], pos)
  | n + 1, pos =>
    match readFloatAt data pos with
    | .error e => .error e
    | .ok (bits, pos2) =>
      match readRatsN data n pos2 with
      | .error e => .error e
      | .ok (vs, pos3) => .ok (f32BitsToRat bits :: vs, pos3)

/-- The transform struct (kiwi.rs `Transform`). -/
structure Transform where
  m00 : ℚ
  m01 : ℚ
  m10 : ℚ
  m11 : ℚ
  tx : ℚ
  ty : ℚ
  deriving DecidableEq, Repr

/-- `Transform::rotation` (kiwi.rs): `self.m01.atan2(self.m00).to_degrees()`.
The float primitive `atan2(y, x) * 180 / pi` is transcendental and has no
exact rational value, so the embedding takes it as an explicit parameter
`atan2deg`; theorems about the decoder hold for every choice of it. -/
def Transform.rotationDeg (atan2deg : ℚ → ℚ → ℚ) (t : Transform) : ℚ :=
  atan2deg t.m01 t.m00

/-- `KiwiDecoder::read_transform` (kiwi.rs): six floats widened to `f64`. -/
def readTransformAt (data : List Nat) (pos : Nat) :
    Except FigmaError (Transform × Nat) :=
  match readRatsN data 6 pos with
  | .error e => .error e
  | .ok (vs, pos2) =>
    .ok (⟨vs.getD 0 0, vs.getD 1 0, vs.getD 2 0, vs.getD 3 0,
      vs.getD 4 0, vs.getD 5 0⟩, pos2)

/-- `KiwiDecoder::read_size` (kiwi.rs): two floats widened to `f64`. -/
def readSizeAt (data : List Nat) (pos : Nat) :
    Except FigmaError ((ℚ × ℚ) × Nat) :=
  match readRatsN data 2 pos with
  | .error e => .error e
  | .ok (vs, pos2) => .ok ((vs.getD 0 0, vs.getD 1 0), pos2)

/-- The field loop of `decode_node_change` (kiwi.rs): starting from
`FigmaNode::default()`, read fields until the end of the message, assigning
only the fields that occur; unknown names are skipped by declared type. One
iteration consumes at least one byte, so fuel of one more than the data
length is always sufficient; the fuel-out error is never reached then.
`atan2deg` is the transcendental primitive of `Transform::rotation`, passed
through to the `transform` arm. -/
def decodeNodeChangeLoop (atan2deg : ℚ → ℚ → ℚ) : Nat → DecoderSt → FigmaNode →
    Except FigmaError (FigmaNode × DecoderSt)
  | 0, _, _ => .error (.DecodeError "out of fuel")
  | fuel + 1, st, node =>
    match nextField st with
    | .error e => .error e
    | .ok (none, st2) => .ok (node, st2)
    | .ok (some f, st2) =>
      let data := st2.data
      let pos := st2.pos
      match f.name with
      | "guid" =>
        match readGuidAt data pos with
        | .error e => .error e
        | .ok (g, p2) =>
          decodeNodeChangeLoop atan2deg fuel { st2 with pos := p2 } { node with id := g }
      | "parentIndex" =>
        match readParentIndexAt data pos with
        | .error e => .error e
        | .ok (parent, p2) =>
          decodeNodeChangeLoop atan2deg fuel { st2 with pos := p2 }
            { node with parentId := parent.1 }
      | "type" =>
        match readNodeTypeAt data pos with
        | .error e => .error e
        | .ok (t, p2) =>
          decodeNodeChangeLoop atan2deg fuel { st2 with pos := p2 }
            { node with nodeType := t }
      | "name" =>
        match readStringAt data pos with
        | .error e => .error e
        | .ok (s, p2) =>
          decodeNodeChangeLoop atan2deg fuel { st2 with pos := p2 } { node with name := s }
      | "visible" =>
        match readBoolAt data pos with
        | .error e => .error e
        | .ok (b, p2) =>
          decodeNodeChangeLoop atan2deg fuel { st2 with pos := p2 }
            { node with visible := b }
      | "opacity" =>
        match readFloatAt data pos with
        | .error e => .error e
        | .ok (bits, p2) =>
          decodeNodeChangeLoop atan2deg fuel { st2 with pos := p2 }
            { node with opacity := f32BitsToRat bits }
      | "transform" =>
        match readTransformAt data pos with
        | .error e => .error e
        | .ok (t, p2) =>
          decodeNodeChangeLoop atan2deg fuel { st2 with pos := p2 }
            { node with x := t.tx, y := t.ty, rotation := t.rotationDeg atan2deg }
      | "size" =>
        match readSizeAt data pos with
        | .error e => .error e
        | .ok (wh, p2) =>
          decodeNodeChangeLoop atan2deg fuel { st2 with pos := p2 }
            { node with width := wh.1, height := wh.2 }
      | "fillPaints" =>
        match readBytesAt data pos with
        | .error e => .error e
        | .ok (bs, p2) =>
          decodeNodeChangeLoop atan2deg fuel { st2 with pos := p2 }
            { node with fillPaintsData := bs }
      | "strokePaints" =>
        match readBytesAt data pos with
        | .error e => .error e
        | .ok (bs, p2) =>
          decodeNodeChangeLoop atan2deg fuel { st2 with pos := p2 }
            { node with strokePaintsData := bs }
      | "effects" =>
        match readBytesAt data pos with
        | .error e => .error e
        | .ok (bs, p2) =>
          decodeNodeChangeLoop atan2deg fuel { st2 with pos := p2 }
            { node with effectsData := bs }
      | "vectorData" =>
        match readBytesAt data pos with
        | .error e => .error e
        | .ok (bs, p2) =>
          decodeNodeChangeLoop atan2deg fuel { st2 with pos := p2 }
            { node with vectorData := bs }
      | "strokeWeight" =>
        match readFloatAt data pos with
        | .error e => .error e
        | .ok (bits, p2) =>
          decodeNodeChangeLoop atan2deg fuel { st2 with pos := p2 }
            { node with strokeWeight := f32BitsToRat bits }
      | "cornerRadius" =>
        match readFloatAt data pos with
        | .error e => .error e
        | .ok (bits, p2) =>
          decodeNodeChangeLoop atan2deg fuel { st2 with pos := p2 }
            { node with cornerRadius := f32BitsToRat bits }
      | "rectangleCornerRadii" =>
        match readRatsN data 4 pos with
        | .error e => .error e
        | .ok (vs, p2) =>
          decodeNodeChangeLoop atan2deg fuel { st2 with pos := p2 }
            { node with cornerRadii := vs }
      | "children" =>
        match readGuidList data f.arrayLength pos node.children with
        | .error e => .error e
        | .ok (cs, p2) =>
          decodeNodeChangeLoop atan2deg fuel { st2 with pos := p2 }
            { node with children := cs }
      | "textData" =>
        match readBytesAt data pos with
        | .error e => .error e
        | .ok (bs, p2) =>
          decodeNodeChangeLoop atan2deg fuel { st2 with pos := p2 }
            { node with textData := bs }
      | "fontName" =>
        match readStringAt data pos with
        | .error e => .error e
        | .ok (s, p2) =>
          decodeNodeChangeLoop atan2deg fuel { st2 with pos := p2 }
            { node with fontName := s }
      | "fontSize" =>
        match readFloatAt data pos with
        | .error e => .error e
        | .ok (bits, p2) =>
          decodeNodeChangeLoop atan2deg fuel { st2 with pos := p2 }
            { node with fontSize := f32BitsToRat bits }
      | "layoutMode" =>
        match readEnumAt data pos with
        | .error e => .error e
        | .ok (s, p2) =>
          decodeNodeChangeLoop atan2deg fuel { st2 with pos := p2 }
            { node with layoutMode := s }
      | "primaryAxisSizingMode" =>
        match readEnumAt data pos with
        | .error e => .error e
        | .ok (s, p2) =>
          decodeNodeChangeLoop atan2deg fuel { st2 with pos := p2 }
            { node with primaryAxisSizing := s }
      | "counterAxisSizingMode" =>
        match readEnumAt data pos with
        | .error e => .error e
        | .ok (s, p2) =>
          decodeNodeChangeLoop atan2deg fuel { st2 with pos := p2 }
            { node with counterAxisSizing := s }
      | "itemSpacing" =>
        match readFloatAt data pos with
        | .error e => .error e
        | .ok (bits, p2) =>
          decodeNodeChangeLoop atan2deg fuel { st2 with pos := p2 }
            { node with itemSpacing := f32BitsToRat bits }
      | "paddingLeft" =>
        match readFloatAt data pos with
        | .error e => .error e
        | .ok (bits, p2) =>
          decodeNodeChangeLoop atan2deg fuel { st2 with pos := p2 }
            { node with padding := node.padding.set 0 (f32BitsToRat bits) }
      | "paddingTop" =>
        match readFloatAt data pos with
        | .error e => .error e
        | .ok (bits, p2) =>
          decodeNodeChangeLoop atan2deg fuel { st2 with pos := p2 }
            { node with padding := node.padding.set 1 (f32BitsToRat bits) }
      | "paddingRight" =>
        match readFloatAt data pos with
        | .error e => .error e
        | .ok (bits, p2) =>
          decodeNodeChangeLoop atan2deg fuel { st2 with pos := p2 }
            { node with padding := node.padding.set 2 (f32BitsToRat bits) }
      | "paddingBottom" =>
        match readFloatAt data pos with
        | .error e => .error e
        | .ok (bits, p2) =>
          decodeNodeChangeLoop atan2deg fuel { st2 with pos := p2 }
            { node with padding := node.padding.set 3 (f32BitsToRat bits) }
      | _ =>
        match skipField st2 f with
        | .error e => .error e
        | .ok st3 => decodeNodeChangeLoop atan2deg fuel st3 node

/-- `decode_node_change` (kiwi.rs): decode one node-change message starting
from `FigmaNode::default()` (the Rust body always returns `Some`). -/
def decodeNodeChange (atan2deg : ℚ → ℚ → ℚ) (fuel : Nat) (st : DecoderSt) :
    Except FigmaError (FigmaNode × DecoderSt) :=
  decodeNodeChangeLoop atan2deg fuel st FigmaNode.mkDefault

/-- C2: contrary to the claim, a node-change message in which `visible` and
`opacity` are absent decodes to `visible = false` and `opacity = 0` — the
`#[derive(Default)]` defaults of nodes.rs — not `true` and `1.0`. Shown on
the empty message (a lone end tag) and on a message carrying only a `name`
field under a schema whose field 1 is `name`. -/
theorem C2_absent_fields_default_to_false_and_zero (atan2deg : ℚ → ℚ → ℚ) :
    decodeNodeChange atan2deg 2 ⟨[0], 0, []⟩ =
      .ok (FigmaNode.mkDefault, ⟨[0], 1, []⟩) ∧
    FigmaNode.mkDefault.visible = false ∧
    FigmaNode.mkDefault.opacity = 0 ∧
    (decodeNodeChange atan2deg 3
        ⟨[1, 65, 0, 0], 0, [⟨"name", 5, false⟩]⟩).toOption.map
        (fun p => (p.1.visible, p.1.opacity, p.1.name)) =
      some (false, 0, "A") := by
  refine ⟨rfl, rfl, rfl, rfl⟩

/-- Association-list lookup, the model of `HashMap::get` used throughout
(spatial.rs `bounds_map`, the node map, tiles.rs `tiles`). -/
def assocLookup {α β : Type} [DecidableEq α] : List (α × β) → α → Option β
  | [], _ => none
  | (k2, v) :: rest, k => if k2 = k then some v else assocLookup rest k

/-- Association-list insert with `HashMap::insert` semantics: the key maps to
the new value and every other binding is preserved. -/
def assocInsert {α β : Type} [DecidableEq α] (m : List (α × β)) (k : α) (v : β) :
    List (α × β) :=
  (k, v) :: m.filter (fun p => p.1 ≠ k)

theorem assocLookup_filter_ne {α β : Type} [DecidableEq α]
    (m : List (α × β)) (k id : α) (h : id ≠ k) :
    assocLookup (m.filter (fun p => p.1 ≠ k)) id = assocLookup m id := by
  induction m with
  | nil => rfl
  | cons p rest ih =>
    by_cases hp : p.1 = k
    · rw [List.filter_cons_of_neg (by simp [hp])]
      rw [ih]
      cases p with
      | mk k2 v =>
        simp only at hp
        rw [assocLookup, if_neg (by rw [hp]; exact fun he => h he.symm)]
    · rw [List.filter_cons_of_pos (by simp [hp])]
      cases p with
      | mk k2 v =>
        rw [assocLookup, assocLookup]
        by_cases he : k2 = id
        · rw [if_pos he, if_pos he]
        · rw [if_neg he, if_neg he, ih]

theorem assocLookup_insert_isSome {α β : Type} [DecidableEq α]
    (m : List (α × β)) (k id : α) (v : β) :
    (assocLookup (assocInsert m k v) id).isSome ↔
      id = k ∨ (assocLookup m id).isSome := by
  rw [assocInsert, assocLookup]
  by_cases he : k = id
  · simp [he]
  · rw [if_neg he, assocLookup_filter_ne m k id (fun hh => he hh.symm)]
    constructor
    · exact fun h2 => Or.inr h2
    · rintro (hid | h2)
      · exact absurd hid.symm he
      · exact h2

/-- Node bounds in absolute coordinates (spatial.rs `NodeBounds`). -/
structure NodeBounds where
  id : String
  minX : ℚ
  minY : ℚ
  maxX : ℚ
  maxY : ℚ
  deriving DecidableEq, Repr

/-- `NodeBounds::contains_point` (spatial.rs): inclusive on all four edges. -/
def NodeBounds.containsPoint (b : NodeBounds) (x y : ℚ) : Bool :=
  decide (x ≥ b.minX) && decide (x ≤ b.maxX) &&
    decide (y ≥ b.minY) && decide (y ≤ b.maxY)

/-- Envelope intersection used by the R-tree query
`locate_in_envelope_intersecting` (rstar crate, external to the repository):
two axis-aligned boxes intersect when they overlap in both axes, inclusively
on the boundary. -/
def aabbIntersects (b : NodeBounds) (qminX qminY qmaxX qmaxY : ℚ) : Bool :=
  decide (b.minX ≤ qmaxX) && decide (qminX ≤ b.maxX) &&
    decide (b.minY ≤ qmaxY) && decide (qminY ≤ b.maxY)

/-- The spatial index (spatial.rs `SpatialIndex`): the R-tree is modelled by
the list of its entries — its queries filter that list through the
documented envelope/point predicates — next to the id-to-bounds map. -/
structure SpatialIndex where
  entries : List NodeBounds
  boundsMap : List (String × NodeBounds)
  deriving DecidableEq, Repr

/-- `SpatialIndex::new` (spatial.rs). -/
def SpatialIndex.empty : SpatialIndex := ⟨[], []⟩

/-- `SpatialIndex::query_rect` (spatial.rs): the ids of all entries whose
envelope intersects the query box. -/
def SpatialIndex.queryRect (idx : SpatialIndex) (qminX qminY qmaxX qmaxY : ℚ) :
    List String :=
  (idx.entries.filter (fun b => aabbIntersects b qminX qminY qmaxX qmaxY)).map
    (fun b => b.id)

/-- `SpatialIndex::query_point` (spatial.rs): the ids of all entries
containing the point. -/
def SpatialIndex.queryPoint (idx : SpatialIndex) (x y : ℚ) : List String :=
  (idx.entries.filter (fun b => b.containsPoint x y)).map (fun b => b.id)

/-- `SpatialIndex::get_node_bounds` (spatial.rs). -/
def SpatialIndex.getNodeBounds (idx : SpatialIndex) (id : String) :
    Option NodeBounds :=
  assocLookup idx.boundsMap id

/-- `SpatialIndex::collect_bounds_recursive` (spatial.rs): walk the tree from
a node accumulating absolute coordinates; a node contributes a leaf and a
map entry iff both its dimensions are positive; children that fail to
resolve are skipped. Fuel bounds the recursion depth (the Rust code simply
recurses, diverging on a cyclic document). -/
def collectBounds (allNodes : List (String × FigmaNode)) :
    Nat → FigmaNode → ℚ → ℚ → List NodeBounds → List (String × NodeBounds) →
    List NodeBounds × List (String × NodeBounds)
  | 0, _, _, _, accL, accM => (accL, accM)
  | fuel + 1, node, parentX, parentY, accL, accM =>
    let absX := parentX + node.x
    let absY := parentY + node.y
    let acc2 :=
      if node.width > 0 ∧ node.height > 0 then
        let b : NodeBounds :=
          ⟨node.id, absX, absY, absX + node.width, absY + node.height⟩
        (accL ++ [b], assocInsert accM node.id b)
      else (accL, accM)
    node.children.foldl (fun acc cid =>
      match assocLookup allNodes cid with
      | some child => collectBounds allNodes fuel child absX absY acc.1 acc.2
      | none => acc) acc2

/-- The nodes visited by `collect_bounds_recursive`, accumulated in the same
traversal order (the specification-side companion of `collectBounds` used to
state which nodes the build reaches). -/
def visitedAux (allNodes : List (String × FigmaNode)) :
    Nat → FigmaNode → List FigmaNode → List FigmaNode
  | 0, _, vacc => vacc
  | fuel + 1, node, vacc =>
    let vacc2 := vacc ++ [node]
    node.children.foldl (fun va cid =>
      match assocLookup allNodes cid with
      | some child => visitedAux allNodes fuel child va
      | none => va) vacc2

/-- `SpatialIndex::build_with_absolute_coords` (spatial.rs): traverse from
`root_id` when it resolves, else the empty index. -/
def buildWithAbsoluteCoords (nodes : List (String × FigmaNode))
    (rootId : String) (fuel : Nat) : SpatialIndex :=
  match assocLookup nodes rootId with
  | some root =>
    let acc := collectBounds nodes fuel root 0 0 [] []
    ⟨acc.1, acc.2⟩
  | none => ⟨[], []⟩

theorem foldl_hom_append {α : Type} (step : List FigmaNode → α → List FigmaNode)
    (hstep : ∀ v a b, step (v ++ a) b = v ++ step a b) :
    ∀ (cs : List α) (v a : List FigmaNode),
      cs.foldl step (v ++ a) = v ++ cs.foldl step a := by
  intro cs
  induction cs with
  | nil => intro v a; rfl
  | cons c rest ih =>
    intro v a
    rw [List.foldl_cons, List.foldl_cons, hstep, ih]

/-- The visited-node accumulator factors out: visiting with accumulator
`vacc` prepends `vacc` to the visit list started from nothing. -/
theorem visitedAux_append (allNodes : List (String × FigmaNode)) :
    ∀ fuel node vacc,
      visitedAux allNodes fuel node vacc = vacc ++ visitedAux allNodes fuel node [] := by
  intro fuel
  induction fuel with
  | zero => intro node vacc; simp [visitedAux]
  | succ f ih =>
    intro node vacc
    rw [visitedAux, visitedAux]
    show node.children.foldl _ (vacc ++ [node]) =
      vacc ++ node.children.foldl _ ([] ++ [node])
    rw [List.nil_append]
    refine foldl_hom_append _ ?_ node.children vacc [node]
    intro v a cid
    cases hl : assocLookup allNodes cid with
    | none => simp only [hl]
    | some child =>
      simp only [hl]
      rw [ih child (v ++ a), ih child a, List.append_assoc]

/-- Presence in the bounds map built by `collectBounds`: an id is present in
the final map iff it was present in the starting map or some visited node
carries that id with positive width and height. -/
theorem collectBounds_presence (allNodes : List (String × FigmaNode)) (id : String) :
    ∀ fuel node parentX parentY accL accM,
      (assocLookup
          (collectBounds allNodes fuel node parentX parentY accL accM).2 id).isSome ↔
        ((assocLookup accM id).isSome ∨
          ∃ n ∈ visitedAux allNodes fuel node [],
            n.id = id ∧ 0 < n.width ∧ 0 < n.height) := by
  intro fuel
  induction fuel with
  | zero =>
    intro node px py accL accM
    simp [collectBounds, visitedAux]
  | succ f ih =>
    intro node px py accL accM
    have J : ∀ (ax ay : ℚ) (cs : List String)
        (p : List NodeBounds × List (String × NodeBounds)) (va : List FigmaNode),
        ((assocLookup p.2 id).isSome ↔
          ((assocLookup accM id).isSome ∨
            ∃ n ∈ va, n.id = id ∧ 0 < n.width ∧ 0 < n.height)) →
        ((assocLookup (cs.foldl (fun acc cid =>
            match assocLookup allNodes cid with
            | some child => collectBounds allNodes f child ax ay acc.1 acc.2
            | none => acc) p).2 id).isSome ↔
          ((assocLookup accM id).isSome ∨
            ∃ n ∈ cs.foldl (fun va2 cid =>
              match assocLookup allNodes cid with
              | some child => visitedAux allNodes f child va2
              | none => va2) va, n.id = id ∧ 0 < n.width ∧ 0 < n.height)) := by
      intro ax ay cs
      induction cs with
      | nil => intro p va H; exact H
      | cons cid rest ihJ =>
        intro p va H
        rw [List.foldl_cons, List.foldl_cons]
        cases hl : assocLookup allNodes cid with
        | none => simp only [hl]; exact ihJ p va H
        | some child =>
          simp only [hl]
          refine ihJ _ _ ?_
          have h1 := ih child ax ay p.1 p.2
          rw [H] at h1
          rw [visitedAux_append allNodes f child va]
          rw [h1]
          simp only [List.mem_append, or_and_right, exists_or, or_assoc]
    simp only [collectBounds, visitedAux, List.nil_append]
    by_cases hdim : node.width > 0 ∧ node.height > 0
    · simp only [if_pos hdim]
      refine J (px + node.x) (py + node.y) node.children _ [node] ?_
      rw [assocLookup_insert_isSome]
      simp only [List.mem_singleton]
      constructor
      · rintro (hid | hm)
        · exact Or.inr ⟨node, rfl, hid.symm, hdim.1, hdim.2⟩
        · exact Or.inl hm
      · rintro (hm | ⟨n, hn, hid, hw2, hh2⟩)
        · exact Or.inr hm
        · exact Or.inl (hn ▸ hid).symm
    · simp only [if_neg hdim]
      refine J (px + node.x) (py + node.y) node.children _ [node] ?_
      simp only [List.mem_singleton]
      constructor
      · exact fun hm => Or.inl hm
      · rintro (hm | ⟨n, hn, hid, hw2, hh2⟩)
        · exact hm
        · exact absurd ⟨hn ▸ hw2, hn ▸ hh2⟩ hdim

/-- A root canvas with no children, for the C8 counterexample. -/
def c8root : FigmaNode :=
  { id := "1:1", nodeType := "CANVAS", width := 100, height := 100 }

/-- A positive-size node present in the node map but not linked from the
root, for the C8 counterexample. -/
def c8orphan : FigmaNode :=
  { id := "9:9", nodeType := "RECTANGLE", width := 10, height := 10 }

/-- The two-node document of the C8 counterexample. -/
def c8nodes : List (String × FigmaNode) := [("1:1", c8root), ("9:9", c8orphan)]

/-- C8 counterexample: node `9:9` is in the document's node map with positive
width and height, yet after building the spatial index from root `1:1` its
bounds are absent, because `build_with_absolute_coords` only walks the tree
reachable from the root — refuting the claimed iff over every node of the
node map. -/
theorem C8_counterexample :
    assocLookup c8nodes "9:9" = some c8orphan ∧
    0 < c8orphan.width ∧ 0 < c8orphan.height ∧
    (buildWithAbsoluteCoords c8nodes "1:1" 5).getNodeBounds "9:9" = none := by
  refine ⟨rfl, by decide, by decide, rfl⟩

/-- C8 (amended): after the spatial index is built from `root_id`,
`get_node_bounds id` returns an entry iff the depth-first traversal from
`root_id` visits some node with that id whose width and height are both
positive (fuel bounds the recursion depth of the traversal; the Rust code
recurses unboundedly). Nodes of the map that the traversal does not reach
are absent even when their dimensions are positive. -/
theorem C8_bounds_present_iff_visited_positive
    (nodes : List (String × FigmaNode)) (rootId : String) (fuel : Nat)
    (id : String) :
    ((buildWithAbsoluteCoords nodes rootId fuel).getNodeBounds id).isSome ↔
      ∃ root, assocLookup nodes rootId = some root ∧
        ∃ n ∈ visitedAux nodes fuel root [],
          n.id = id ∧ 0 < n.width ∧ 0 < n.height := by
  rw [buildWithAbsoluteCoords]
  cases hr : assocLookup nodes rootId with
  | none =>
    simp [SpatialIndex.getNodeBounds, assocLookup]
  | some root =>
    simp only [SpatialIndex.getNodeBounds]
    rw [collectBounds_presence nodes id fuel root 0 0 [] []]
    simp only [assocLookup, Option.isSome_none, Bool.false_eq_true, false_or,
      Option.some.injEq]
    constructor
    · intro h
      exact ⟨root, rfl, h⟩
    · rintro ⟨root2, hroot2, h⟩
      exact hroot2 ▸ h

/-- C9: every id returned by `query_point (x, y)` is also returned by
`query_rect (x, y, x, y)`, and point containment is inclusive on all edges
of a node's bounds (shown at the two extreme corners). -/
theorem C9_query_point_subset_query_rect (idx : SpatialIndex) (x y : ℚ)
    (id : String) :
    (id ∈ idx.queryPoint x y → id ∈ idx.queryRect x y x y) ∧
    (∀ b : NodeBounds, b.minX ≤ b.maxX → b.minY ≤ b.maxY →
      b.containsPoint b.minX b.minY = true ∧
      b.containsPoint b.maxX b.maxY = true) := by
  constructor
  · intro h
    rw [SpatialIndex.queryPoint] at h
    rw [SpatialIndex.queryRect]
    rcases List.mem_map.mp h with ⟨b, hb, hid⟩
    rcases List.mem_filter.mp hb with ⟨hmem, hcp⟩
    refine List.mem_map.mpr ⟨b, List.mem_filter.mpr ⟨hmem, ?_⟩, hid⟩
    rw [NodeBounds.containsPoint] at hcp
    rw [aabbIntersects]
    simp only [Bool.and_eq_true, decide_eq_true_eq] at hcp ⊢
    exact ⟨⟨⟨hcp.1.1.1, hcp.1.1.2⟩, hcp.1.2⟩, hcp.2⟩
  · intro b hx hy
    constructor
    · rw [NodeBounds.containsPoint]
      simp only [Bool.and_eq_true, decide_eq_true_eq]
      exact ⟨⟨⟨le_refl _, hx⟩, le_refl _⟩, hy⟩
    · rw [NodeBounds.containsPoint]
      simp only [Bool.and_eq_true, decide_eq_true_eq]
      exact ⟨⟨⟨hx, le_refl _⟩, hy⟩, le_refl _⟩

/-- A one-entry index for the C9 witness. -/
def c9bounds : NodeBounds := ⟨"a", 0, 0, 10, 10⟩

/-- The index of the C9 witness. -/
def c9index : SpatialIndex := ⟨[c9bounds], [("a", c9bounds)]⟩

/-- C9 witness: the subset statement applied at a concrete index and point,
and edge inclusivity at the concrete bounds. -/
theorem C9_witness :
    "a" ∈ c9index.queryRect 5 5 5 5 ∧
    (c9bounds.containsPoint 0 0 = true ∧ c9bounds.containsPoint 10 10 = true) :=
  ⟨(C9_query_point_subset_query_rect c9index 5 5 "a").1 (by decide),
    (C9_query_point_subset_query_rect c9index 5 5 "a").2 c9bounds
      (by decide) (by decide)⟩

/-- Rect struct of api.rs (`RectInfo`), with the four corner radii. -/
structure RectInfo where
  x : ℚ
  y : ℚ
  width : ℚ
  height : ℚ
  cornerRadii : List ℚ
  deriving DecidableEq, Repr

/-- Transform struct of api.rs (`TransformInfo`). -/
structure TransformInfo where
  m00 : ℚ
  m01 : ℚ
  m02 : ℚ
  m10 : ℚ
  m11 : ℚ
  m12 : ℚ
  deriving DecidableEq, Repr

/-- `TransformInfo::default` (api.rs): the identity transform. -/
def TransformInfo.identity : TransformInfo := ⟨1, 0, 0, 0, 1, 0⟩

/-- Draw-command struct of api.rs (`DrawCommand`). -/
structure DrawCommand where
  commandType : String
  path : Option PathData
  rect : Option RectInfo
  fills : List PaintInfo
  strokes : List PaintInfo
  strokeWeight : ℚ
  effects : List EffectInfo
  transform : TransformInfo
  clipPath : Option PathData
  deriving DecidableEq, Repr

/-- Node type enumeration (nodes.rs `NodeType`). -/
inductive NodeType where
  | document | canvas | frame | group | vector | booleanOperation | star
  | line | ellipse | regularPolygon | rectangle | text | slice | component
  | componentSet | instanceNode | sticky | shapeWithText | connector | section
  | unknown (s : String)
  deriving DecidableEq, Repr

/-- `From<&str> for NodeType` (nodes.rs). -/
def NodeType.fromString (s : String) : NodeType :=
  match s with
  | "DOCUMENT" => .document
  | "CANVAS" => .canvas
  | "FRAME" => .frame
  | "GROUP" => .group
  | "VECTOR" => .vector
  | "BOOLEAN_OPERATION" => .booleanOperation
  | "STAR" => .star
  | "LINE" => .line
  | "ELLIPSE" => .ellipse
  | "REGULAR_POLYGON" => .regularPolygon
  | "RECTANGLE" => .rectangle
  | "TEXT" => .text
  | "SLICE" => .slice
  | "COMPONENT" => .component
  | "COMPONENT_SET" => .componentSet
  | "INSTANCE" => .instanceNode
  | "STICKY" => .sticky
  | "SHAPE_WITH_TEXT" => .shapeWithText
  | "CONNECTOR" => .connector
  | "SECTION" => .section
  | other => .unknown other

/-- Stand-in for Rust's `f64` `Display` inside `format!` of path strings
(nodes.rs): the decimal printer is not reproduced; the exact rational is
rendered instead, which no claim depends on. -/
def numRepr (q : ℚ) : String := toString q

/-- `generate_ellipse_path` (nodes.rs): an ellipse as two SVG arcs. -/
def generateEllipsePath (x y width height : ℚ) : PathData :=
  let cx := x + width / 2
  let cy := y + height / 2
  let rx := width / 2
  let ry := height / 2
  { commands :=
      "M " ++ numRepr (cx + rx) ++ " " ++ numRepr cy ++
      " A " ++ numRepr rx ++ " " ++ numRepr ry ++ " 0 1 1 " ++
      numRepr (cx - rx) ++ " " ++ numRepr cy ++
      " A " ++ numRepr rx ++ " " ++ numRepr ry ++ " 0 1 1 " ++
      numRepr (cx + rx) ++ " " ++ numRepr cy ++ " Z",
    fillRule := "nonzero" }

/-- `FigmaNode::to_draw_command` (nodes.rs): nothing for invisible nodes;
paints/effects decoded with errors defaulted to empty (`unwrap_or_default`);
the command shape selected by node type. -/
def FigmaNode.toDrawCommand (node : FigmaNode) : Option DrawCommand :=
  if node.visible = false then none
  else
    let nodeType := NodeType.fromString node.nodeType
    let fills := (decodeFillPaintData node.fillPaintsData).toOption.getD []
    let strokes := (decodeFillPaintData node.strokePaintsData).toOption.getD []
    let effects := (decodeEffectData node.effectsData).toOption.getD []
    match nodeType with
    | .rectangle | .frame | .component | .instanceNode =>
      some
        { commandType := "rect"
          path := none
          rect := some
            ⟨node.x, node.y, node.width, node.height,
              if node.cornerRadii.any (fun r => decide (r ≠ 0)) then
                node.cornerRadii
              else
                [node.cornerRadius, node.cornerRadius, node.cornerRadius,
                  node.cornerRadius]⟩
          fills := fills
          strokes := strokes
          strokeWeight := node.strokeWeight
          effects := effects
          transform := ⟨1, 0, node.x, 0, 1, node.y⟩
          clipPath := none }
    | .ellipse =>
      some
        { commandType := "ellipse"
          path := some (generateEllipsePath node.x node.y node.width node.height)
          rect := some ⟨node.x, node.y, node.width, node.height, [0, 0, 0, 0]⟩
          fills := fills
          strokes := strokes
          strokeWeight := node.strokeWeight
          effects := effects
          transform := TransformInfo.identity
          clipPath := none }
    | .vector | .star | .regularPolygon | .line =>
      some
        { commandType := "path"
          path := some ((decodeVectorData node.vectorData).toOption.getD
            ⟨"", "nonzero"⟩)
          rect := none
          fills := fills
          strokes := strokes
          strokeWeight := node.strokeWeight
          effects := effects
          transform := ⟨1, 0, node.x, 0, 1, node.y⟩
          clipPath := none }
    | .text =>
      some
        { commandType := "text"
          path := none
          rect := some ⟨node.x, node.y, node.width, node.height, [0, 0, 0, 0]⟩
          fills := fills
          strokes := strokes
          strokeWeight := node.strokeWeight
          effects := effects
          transform := TransformInfo.identity
          clipPath := none }
    | .group | .booleanOperation => none
    | .document | .canvas | .section | .slice => none
    | _ => none

/-- `TILE_SIZE` (tiles.rs): fixed tile side in world coordinates. -/
def TILE_SIZE : ℚ := 1024

/-- `MAX_CACHED_TILES` (tiles.rs): default LRU capacity. -/
def MAX_CACHED_TILES : Nat := 256

/-- Tile coordinate (tiles.rs `TileCoord`). -/
structure TileCoord where
  x : ℤ
  y : ℤ
  zoomLevel : Nat
  deriving DecidableEq, Repr

/-- `TileCoord::bounds` (tiles.rs): world-space bounds of the tile. -/
def TileCoord.bounds (c : TileCoord) : RectInfo :=
  let scale : ℚ := 2 ^ c.zoomLevel
  let tileSize := TILE_SIZE * scale
  ⟨(c.x : ℚ) * tileSize, (c.y : ℚ) * tileSize, tileSize, tileSize, [0, 0, 0, 0]⟩

/-- A cached tile (tiles.rs `Tile`). -/
structure Tile where
  coord : TileCoord
  bounds : RectInfo
  commands : List DrawCommand
  nodeIds : List String
  dirty : Bool
  lastAccessed : Nat
  deriving DecidableEq, Repr

/-- Viewport (tiles.rs `Viewport`). -/
structure Viewport where
  x : ℚ
  y : ℚ
  width : ℚ
  height : ℚ
  scale : ℚ
  deriving DecidableEq, Repr

/-- `Viewport::intersects` (tiles.rs): closed rectangle intersection. -/
def Viewport.intersects (v : Viewport) (rect : RectInfo) : Bool :=
  !(decide (rect.x + rect.width < v.x) || decide (rect.x > v.x + v.width) ||
    decide (rect.y + rect.height < v.y) || decide (rect.y > v.y + v.height))

/-- The tile grid (tiles.rs `TileGrid`); the `HashMap` of tiles is modelled
as an association list with unique keys. -/
structure TileGrid where
  tiles : List (TileCoord × Tile)
  maxCachedTiles : Nat
  accessCounter : Nat
  deriving DecidableEq, Repr

/-- `TileGrid::with_capacity` (tiles.rs). -/
def TileGrid.withCapacity (n : Nat) : TileGrid := ⟨[], n, 0⟩

/-- `TileGrid::new` (tiles.rs). -/
def TileGrid.mkNew : TileGrid := TileGrid.withCapacity MAX_CACHED_TILES

/-- `TileGrid::zoom_to_lod` (tiles.rs; `self` is unused in the source). -/
def zoomToLod (scale : ℚ) : Nat :=
  if scale ≥ 1 / 2 then 0
  else if scale ≥ 1 / 4 then 1
  else if scale ≥ 1 / 8 then 2
  else 3

/-- The closed integer range `lo..=hi` of a Rust `for` loop. -/
def intRangeIncl (lo hi : ℤ) : List ℤ :=
  (List.range (hi + 1 - lo).toNat).map (fun (i : ℕ) => lo + (i : ℤ))

/-- `TileGrid::get_visible_tiles` (tiles.rs; `self` only feeds
`zoom_to_lod`): floor/ceil tile range covering the viewport at the selected
LOD, emitted column-major. -/
def getVisibleTiles (viewport : Viewport) : List TileCoord :=
  let zoomLevel := zoomToLod viewport.scale
  let scale : ℚ := 2 ^ zoomLevel
  let tileSize := TILE_SIZE * scale
  let minTx := ⌊viewport.x / tileSize⌋
  let minTy := ⌊viewport.y / tileSize⌋
  let maxTx := ⌈(viewport.x + viewport.width) / tileSize⌉
  let maxTy := ⌈(viewport.y + viewport.height) / tileSize⌉
  (intRangeIncl minTx maxTx).flatMap (fun tx =>
    (intRangeIncl minTy maxTy).map (fun ty => TileCoord.mk tx ty zoomLevel))

/-- `TileGrid::generate_tile` (tiles.rs): query the spatial index with the
tile bounds, cull nodes below the LOD threshold, synthesize commands; the
fresh tile is clean and carries the current access counter. -/
def TileGrid.generateTile (grid : TileGrid) (coord : TileCoord)
    (nodes : List (String × FigmaNode)) (spatialIndex : SpatialIndex) : Tile :=
  let bounds := coord.bounds
  let nodeIds := spatialIndex.queryRect bounds.x bounds.y
    (bounds.x + bounds.width) (bounds.y + bounds.height)
  let simplification : ℚ :=
    match coord.zoomLevel with
    | 0 => 1
    | 1 => 1 / 2
    | 2 => 1 / 4
    | _ => 1 / 8
  let minVisibleSize := 1 / simplification
  let commands := nodeIds.foldl (fun acc id =>
    match assocLookup nodes id with
    | some node =>
      if node.width < minVisibleSize ∧ node.height < minVisibleSize then acc
      else
        match node.toDrawCommand with
        | some cmd => acc ++ [cmd]
        | none => acc
    | none => acc) []
  ⟨coord, bounds, commands, nodeIds, false, grid.accessCounter⟩

/-- `Iterator::min_by_key` over the tile map (tiles.rs `evict_lru`): the
first entry attaining the minimal `last_accessed`. -/
def minByLastAccessed (ts : List (TileCoord × Tile)) : Option (TileCoord × Tile) :=
  ts.foldl (fun best p =>
    match best with
    | none => some p
    | some b => if p.2.lastAccessed < b.2.lastAccessed then some p else some b)
    none

/-- `TileGrid::evict_lru` (tiles.rs): remove the entry with the minimal
`last_accessed`, if any. -/
def TileGrid.evictLRU (grid : TileGrid) : TileGrid :=
  match minByLastAccessed grid.tiles with
  | some p => { grid with tiles := grid.tiles.filter (fun q => q.1 ≠ p.1) }
  | none => grid

/-- `TileGrid::get_or_create_tile` (tiles.rs): bump the access counter; a
clean hit returns the cached tile with refreshed `last_accessed`; a dirty
hit or a miss evicts the LRU entry when at capacity, regenerates, stores and
returns the fresh tile. -/
def TileGrid.getOrCreateTile (grid : TileGrid) (coord : TileCoord)
    (nodes : List (String × FigmaNode)) (spatialIndex : SpatialIndex) :
    Tile × TileGrid :=
  let counter := grid.accessCounter + 1
  let grid1 : TileGrid := { grid with accessCounter := counter }
  match assocLookup grid1.tiles coord with
  | some tile =>
    let tile2 := { tile with lastAccessed := counter }
    let grid2 : TileGrid := { grid1 with tiles := assocInsert grid1.tiles coord tile2 }
    if tile.dirty = false then (tile2, grid2)
    else
      let grid3 := if grid2.tiles.length ≥ grid2.maxCachedTiles then
        grid2.evictLRU else grid2
      let newTile := grid3.generateTile coord nodes spatialIndex
      (newTile, { grid3 with tiles := assocInsert grid3.tiles coord newTile })
  | none =>
    let grid3 := if grid1.tiles.length ≥ grid1.maxCachedTiles then
      grid1.evictLRU else grid1
    let newTile := grid3.generateTile coord nodes spatialIndex
    (newTile, { grid3 with tiles := assocInsert grid3.tiles coord newTile })

/-- `TileGrid::tiles_for_bounds` (tiles.rs): for each LOD, the floor/ceil
tile range intersecting the bounds. -/
def tilesForBounds (bounds : NodeBounds) : List TileCoord :=
  ([0, 1, 2, 3] : List Nat).flatMap (fun zoomLevel =>
    let scale : ℚ := 2 ^ zoomLevel
    let tileSize := TILE_SIZE * scale
    let minTx := ⌊bounds.minX / tileSize⌋
    let minTy := ⌊bounds.minY / tileSize⌋
    let maxTx := ⌈bounds.maxX / tileSize⌉
    let maxTy := ⌈bounds.maxY / tileSize⌉
    (intRangeIncl minTx maxTx).flatMap (fun tx =>
      (intRangeIncl minTy maxTy).map (fun ty => TileCoord.mk tx ty zoomLevel)))

/-- Mark the entry at a coordinate dirty (the `get_mut` update in
`invalidate_for_nodes`, tiles.rs). -/
def setDirtyAt (ts : List (TileCoord × Tile)) (coord : TileCoord) :
    List (TileCoord × Tile) :=
  ts.map (fun p => if p.1 = coord then (p.1, { p.2 with dirty := true }) else p)

/-- `TileGrid::invalidate_for_nodes` (tiles.rs): for each changed id with
bounds in the index, mark every currently cached tile in the LOD cover
dirty, collecting the coords (duplicates possible). -/
def TileGrid.invalidateForNodes (grid : TileGrid) (changedIds : List String)
    (spatialIndex : SpatialIndex) : List TileCoord × TileGrid :=
  changedIds.foldl (fun acc id =>
    match spatialIndex.getNodeBounds id with
    | some bounds =>
      (tilesForBounds bounds).foldl (fun acc2 coord =>
        match assocLookup acc2.2.tiles coord with
        | some _ =>
          (acc2.1 ++ [coord],
            { acc2.2 with tiles := setDirtyAt acc2.2.tiles coord })
        | none => acc2) acc
    | none => acc) ([], grid)

/-- `TileGrid::clear` (tiles.rs). -/
def TileGrid.clearTiles (grid : TileGrid) : TileGrid := { grid with tiles := [] }

theorem mem_intRangeIncl (lo hi a : ℤ) :
    a ∈ intRangeIncl lo hi ↔ lo ≤ a ∧ a ≤ hi := by
  rw [intRangeIncl]
  constructor
  · intro h
    obtain ⟨i, hi2, hEq⟩ := List.mem_map.mp h
    rw [List.mem_range] at hi2
    omega
  · intro hc
    exact List.mem_map.mpr ⟨(a - lo).toNat, List.mem_range.mpr (by omega), by omega⟩

/-- C6 counterexample: for the viewport `(0, 0, 100, 100)` at scale 1 the
enumeration emits tile `(1, 0, 0)`, whose envelope `[1024, 2048] × [0, 1024]`
does not intersect the viewport rectangle — the ceil-based upper bound emits
one column (and row) past the covered area whenever the viewport edge is not
tile-aligned. -/
theorem getVisibleTiles_c6_eval :
    getVisibleTiles ⟨0, 0, 100, 100, 1⟩ =
      [⟨0, 0, 0⟩, ⟨0, 1, 0⟩, ⟨1, 0, 0⟩, ⟨1, 1, 0⟩] := by
  have hz : zoomToLod (1 : ℚ) = 0 := by
    rw [zoomToLod, if_pos]
    norm_num
  have hflo : ⌊(0 : ℚ) / (1024 * 2 ^ 0)⌋ = 0 := by norm_num
  have hcei : ⌈((0 : ℚ) + 100) / (1024 * 2 ^ 0)⌉ = 1 := by
    rw [show ((0 : ℚ) + 100) / (1024 * 2 ^ 0) = 25 / 256 by norm_num]
    rw [Int.ceil_eq_iff]
    constructor
    · norm_num
    · norm_num
  rw [getVisibleTiles]
  dsimp only [TILE_SIZE]
  rw [hz, hflo, hcei]
  decide

theorem C6_counterexample :
    TileCoord.mk 1 0 0 ∈ getVisibleTiles ⟨0, 0, 100, 100, 1⟩ ∧
    (Viewport.mk 0 0 100 100 1).intersects (TileCoord.mk 1 0 0).bounds = false := by
  constructor
  · rw [getVisibleTiles_c6_eval]
    decide
  · rw [Viewport.intersects, TileCoord.bounds]
    dsimp only [TILE_SIZE]
    simp only [Bool.not_eq_false', Bool.or_eq_true, decide_eq_true_eq]
    norm_num

/-- C6 (amended): every tile emitted by `get_visible_tiles` carries the
selected LOD and its envelope intersects the viewport enlarged by one tile
side to the right and bottom — emitted tiles can overshoot the viewport by
at most one tile column and row (and do, by the counterexample), never
more. -/
theorem C6_visible_tiles_near_viewport (vp : Viewport) (coord : TileCoord)
    (h : coord ∈ getVisibleTiles vp) :
    coord.zoomLevel = zoomToLod vp.scale ∧
    (Viewport.mk vp.x vp.y
        (vp.width + TILE_SIZE * 2 ^ zoomToLod vp.scale)
        (vp.height + TILE_SIZE * 2 ^ zoomToLod vp.scale)
        vp.scale).intersects coord.bounds = true := by
  simp only [getVisibleTiles, List.mem_flatMap, List.mem_map] at h
  obtain ⟨tx, htx, ty, hty, hcoord⟩ := h
  rw [mem_intRangeIncl] at htx hty
  subst hcoord
  set lod := zoomToLod vp.scale with hlod
  refine ⟨rfl, ?_⟩
  set S : ℚ := TILE_SIZE * 2 ^ lod with hS
  have hSpos : (0 : ℚ) < S := by
    rw [hS, TILE_SIZE]
    positivity
  have hxup : (tx : ℚ) * S < vp.x + vp.width + S := by
    have h1 : (tx : ℚ) ≤ (⌈(vp.x + vp.width) / S⌉ : ℚ) := by
      exact_mod_cast htx.2
    have h2 : ((⌈(vp.x + vp.width) / S⌉ : ℤ) : ℚ) < (vp.x + vp.width) / S + 1 :=
      Int.ceil_lt_add_one _
    have h3 : (tx : ℚ) < (vp.x + vp.width) / S + 1 := lt_of_le_of_lt h1 h2
    have h4 := mul_lt_mul_of_pos_right h3 hSpos
    rwa [add_mul, div_mul_cancel₀ _ (ne_of_gt hSpos), one_mul] at h4
  have hxlo : vp.x < (tx : ℚ) * S + S := by
    have h1 : ((⌊vp.x / S⌋ : ℤ) : ℚ) ≤ (tx : ℚ) := by exact_mod_cast htx.1
    have h2 : vp.x / S < (⌊vp.x / S⌋ : ℚ) + 1 := Int.lt_floor_add_one _
    have h3 : vp.x / S < (tx : ℚ) + 1 := lt_of_lt_of_le h2 (by linarith)
    have h4 := (div_lt_iff hSpos).mp h3
    linarith [h4]
  have hyup : (ty : ℚ) * S < vp.y + vp.height + S := by
    have h1 : (ty : ℚ) ≤ (⌈(vp.y + vp.height) / S⌉ : ℚ) := by
      exact_mod_cast hty.2
    have h2 : ((⌈(vp.y + vp.height) / S⌉ : ℤ) : ℚ) < (vp.y + vp.height) / S + 1 :=
      Int.ceil_lt_add_one _
    have h3 : (ty : ℚ) < (vp.y + vp.height) / S + 1 := lt_of_le_of_lt h1 h2
    have h4 := mul_lt_mul_of_pos_right h3 hSpos
    rwa [add_mul, div_mul_cancel₀ _ (ne_of_gt hSpos), one_mul] at h4
  have hylo : vp.y < (ty : ℚ) * S + S := by
    have h1 : ((⌊vp.y / S⌋ : ℤ) : ℚ) ≤ (ty : ℚ) := by exact_mod_cast hty.1
    have h2 : vp.y / S < (⌊vp.y / S⌋ : ℚ) + 1 := Int.lt_floor_add_one _
    have h3 : vp.y / S < (ty : ℚ) + 1 := lt_of_lt_of_le h2 (by linarith)
    have h4 := (div_lt_iff hSpos).mp h3
    linarith [h4]
  rw [Viewport.intersects, TileCoord.bounds]
  simp only [Bool.not_eq_true', Bool.or_eq_false_iff, decide_eq_false_iff_not,
    not_lt]
  refine ⟨⟨⟨?_, ?_⟩, ?_⟩, ?_⟩
  · show vp.x ≤ (tx : ℚ) * (TILE_SIZE * 2 ^ lod) + TILE_SIZE * 2 ^ lod
    rw [← hS]
    linarith
  · show (tx : ℚ) * (TILE_SIZE * 2 ^ lod) ≤ vp.x + (vp.width + TILE_SIZE * 2 ^ lod)
    rw [← hS]
    linarith
  · show vp.y ≤ (ty : ℚ) * (TILE_SIZE * 2 ^ lod) + TILE_SIZE * 2 ^ lod
    rw [← hS]
    linarith
  · show (ty : ℚ) * (TILE_SIZE * 2 ^ lod) ≤ vp.y + (vp.height + TILE_SIZE * 2 ^ lod)
    rw [← hS]
    linarith

/-- C6 witness: the amended theorem applied at the concrete viewport
`(0, 0, 100, 100, 1)` and the emitted tile `(1, 0, 0)`. -/
theorem C6_witness :
    (TileCoord.mk 1 0 0).zoomLevel = zoomToLod (1 : ℚ) ∧
    (Viewport.mk 0 0 (100 + TILE_SIZE * 2 ^ zoomToLod (1 : ℚ))
        (100 + TILE_SIZE * 2 ^ zoomToLod (1 : ℚ)) 1).intersects
      (TileCoord.mk 1 0 0).bounds = true :=
  C6_visible_tiles_near_viewport ⟨0, 0, 100, 100, 1⟩ (TileCoord.mk 1 0 0)
    (by rw [getVisibleTiles_c6_eval]; decide)

theorem assocLookup_none_filter {α β : Type} [DecidableEq α]
    (m : List (α × β)) (k : α) (h : assocLookup m k = none) :
    m.filter (fun p => p.1 ≠ k) = m := by
  induction m with
  | nil => rfl
  | cons p rest ih =>
    rw [assocLookup] at h
    by_cases hp : p.1 = k
    · rw [if_pos (by cases p; exact hp)] at h
      exact absurd h (by simp)
    · rw [if_neg (by cases p; exact hp)] at h
      rw [List.filter_cons_of_pos (by simpa using hp), ih h]

theorem filter_length_lt_of_mem {α : Type} (l : List α) (p : α → Bool) (x : α)
    (hx : x ∈ l) (hp : p x = false) : (l.filter p).length < l.length := by
  induction l with
  | nil => exact absurd hx (List.not_mem_nil x)
  | cons a rest ih =>
    rcases List.mem_cons.mp hx with rfl | hx2
    · rw [List.filter_cons_of_neg (by simp [hp])]
      exact Nat.lt_succ_of_le (List.length_filter_le p rest)
    · cases hpa : p a with
      | true =>
        rw [List.filter_cons_of_pos hpa]
        exact Nat.succ_lt_succ (ih hx2)
      | false =>
        rw [List.filter_cons_of_neg (by simp [hpa])]
        exact Nat.lt_succ_of_lt (ih hx2)

theorem assocLookup_some_filter_lt {α β : Type} [DecidableEq α]
    (m : List (α × β)) (k : α) (v : β) (h : assocLookup m k = some v) :
    (m.filter (fun p => p.1 ≠ k)).length < m.length := by
  induction m with
  | nil => exact absurd h (by rw [assocLookup]; simp)
  | cons p rest ih =>
    rw [assocLookup] at h
    by_cases hp : p.1 = k
    · exact filter_length_lt_of_mem _ _ p (List.mem_cons_self p rest) (by simp [hp])
    · rw [if_neg (by cases p; exact hp)] at h
      rw [List.filter_cons_of_pos (by simpa using hp)]
      exact Nat.succ_lt_succ (ih h)

theorem minByLastAccessed_go_isSome (ts : List (TileCoord × Tile)) :
    ∀ b : TileCoord × Tile,
      (ts.foldl (fun best p =>
        match best with
        | none => some p
        | some b2 => if p.2.lastAccessed < b2.2.lastAccessed then some p
          else some b2) (some b)).isSome := by
  induction ts with
  | nil => intro b; rfl
  | cons q rest ih =>
    intro b
    rw [List.foldl_cons]
    by_cases hq : q.2.lastAccessed < b.2.lastAccessed
    · simpa [hq] using ih q
    · simpa [hq] using ih b

theorem minByLastAccessed_isSome (ts : List (TileCoord × Tile)) (h : ts ≠ []) :
    (minByLastAccessed ts).isSome := by
  cases ts with
  | nil => exact absurd rfl h
  | cons q rest =>
    rw [minByLastAccessed, List.foldl_cons]
    exact minByLastAccessed_go_isSome rest q

theorem minByLastAccessed_go_spec (ts : List (TileCoord × Tile)) :
    ∀ (b : Option (TileCoord × Tile)) (p : TileCoord × Tile),
      ts.foldl (fun best q =>
        match best with
        | none => some q
        | some b2 => if q.2.lastAccessed < b2.2.lastAccessed then some q
          else some b2) b = some p →
      (p ∈ ts ∨ b = some p) ∧
      (∀ q ∈ ts, p.2.lastAccessed ≤ q.2.lastAccessed) ∧
      (∀ b2, b = some b2 → p.2.lastAccessed ≤ b2.2.lastAccessed) := by
  induction ts with
  | nil =>
    intro b p h
    rw [List.foldl_nil] at h
    exact ⟨Or.inr h, fun q hq => absurd hq (List.not_mem_nil q),
      fun b2 hb2 => by rw [h] at hb2; cases hb2; exact le_refl _⟩
  | cons q rest ih =>
    intro b p h
    rw [List.foldl_cons] at h
    cases b with
    | none =>
      simp only at h
      obtain ⟨hmem, hall, hb⟩ := ih (some q) p h
      refine ⟨?_, ?_, ?_⟩
      · rcases hmem with hm | hm
        · exact Or.inl (List.mem_cons_of_mem q hm)
        · cases hm; exact Or.inl (List.mem_cons_self _ _)
      · intro r hr
        rcases List.mem_cons.mp hr with rfl | hr2
        · exact hb r rfl
        · exact hall r hr2
      · intro b2 hb2
        exact absurd hb2 (by simp)
    | some b0 =>
      by_cases hlt : q.2.lastAccessed < b0.2.lastAccessed
      · rw [show (match some b0 with
            | none => some q
            | some b2 => if q.2.lastAccessed < b2.2.lastAccessed then some q
              else some b2) = some q by simp [hlt]] at h
        obtain ⟨hmem, hall, hb⟩ := ih (some q) p h
        refine ⟨?_, ?_, ?_⟩
        · rcases hmem with hm | hm
          · exact Or.inl (List.mem_cons_of_mem q hm)
          · cases hm; exact Or.inl (List.mem_cons_self _ _)
        · intro r hr
          rcases List.mem_cons.mp hr with rfl | hr2
          · exact hb r rfl
          · exact hall r hr2
        · intro b2 hb2
          cases hb2
          exact le_trans (hb q rfl) (le_of_lt hlt)
      · rw [show (match some b0 with
            | none => some q
            | some b2 => if q.2.lastAccessed < b2.2.lastAccessed then some q
              else some b2) = some b0 by simp [hlt]] at h
        obtain ⟨hmem, hall, hb⟩ := ih (some b0) p h
        refine ⟨?_, ?_, ?_⟩
        · rcases hmem with hm | hm
          · exact Or.inl (List.mem_cons_of_mem q hm)
          · exact Or.inr hm
        · intro r hr
          rcases List.mem_cons.mp hr with rfl | hr2
          · exact le_trans (hb b0 rfl) (not_lt.mp hlt)
          · exact hall r hr2
        · exact hb


theorem assocInsert_length_le {α β : Type} [DecidableEq α]
    (m : List (α × β)) (k : α) (v : β) :
    (assocInsert m k v).length ≤ m.length + 1 := by
  rw [assocInsert]
  simp only [List.length_cons]
  have h := List.length_filter_le (fun (p : α × β) => decide (p.1 ≠ k)) m
  omega

theorem assocInsert_length_le_of_some {α β : Type} [DecidableEq α]
    (m : List (α × β)) (k : α) (v v0 : β) (h : assocLookup m k = some v0) :
    (assocInsert m k v).length ≤ m.length := by
  rw [assocInsert]
  simp only [List.length_cons]
  have h2 := assocLookup_some_filter_lt m k v0 h
  omega

theorem evictLRU_max (g : TileGrid) :
    g.evictLRU.maxCachedTiles = g.maxCachedTiles := by
  rw [TileGrid.evictLRU]
  cases minByLastAccessed g.tiles <;> rfl

theorem evictLRU_counter (g : TileGrid) :
    g.evictLRU.accessCounter = g.accessCounter := by
  rw [TileGrid.evictLRU]
  cases minByLastAccessed g.tiles <;> rfl

/-- Inserting a tile after the conditional LRU eviction keeps the map within
a capacity of at least one that already bounded it. -/
theorem evictInsert_len (g : TileGrid) (coord : TileCoord) (t : Tile)
    (hmax : 1 ≤ g.maxCachedTiles) (hlen : g.tiles.length ≤ g.maxCachedTiles) :
    (assocInsert
      (if g.tiles.length ≥ g.maxCachedTiles then g.evictLRU else g).tiles
      coord t).length ≤ g.maxCachedTiles := by
  by_cases hc : g.tiles.length ≥ g.maxCachedTiles
  · rw [if_pos hc]
    have hne : g.tiles ≠ [] := by
      intro hnil
      rw [hnil] at hc
      simp only [List.length_nil] at hc
      omega
    have hs := minByLastAccessed_isSome g.tiles hne
    rw [TileGrid.evictLRU]
    cases hmb : minByLastAccessed g.tiles with
    | none => rw [hmb] at hs; exact absurd hs (by simp)
    | some p =>
      simp only
      obtain ⟨hmem, _, _⟩ := minByLastAccessed_go_spec g.tiles none p hmb
      have hmem2 : p ∈ g.tiles := by
        rcases hmem with hm | hm
        · exact hm
        · exact absurd hm (by simp)
      have hlt := filter_length_lt_of_mem g.tiles
        (fun q => decide (q.1 ≠ p.1)) p hmem2 (by simp)
      have h2 := assocInsert_length_le
        (g.tiles.filter (fun q => decide (q.1 ≠ p.1))) coord t
      omega
  · rw [if_neg hc]
    have h2 := assocInsert_length_le g.tiles coord t
    omega


/-- A lookup keeps the tile map within a capacity of at least one that
already bounded it, and leaves the capacity unchanged. -/
theorem getOrCreateTile_len (grid : TileGrid) (coord : TileCoord)
    (nodes : List (String × FigmaNode)) (idx : SpatialIndex)
    (hmax : 1 ≤ grid.maxCachedTiles)
    (hlen : grid.tiles.length ≤ grid.maxCachedTiles) :
    (grid.getOrCreateTile coord nodes idx).2.tiles.length ≤ grid.maxCachedTiles ∧
    (grid.getOrCreateTile coord nodes idx).2.maxCachedTiles =
      grid.maxCachedTiles := by
  simp only [TileGrid.getOrCreateTile]
  cases hl : assocLookup grid.tiles coord with
  | some tile =>
    simp only [hl]
    by_cases hd : tile.dirty = false
    · rw [if_pos hd]
      exact ⟨le_trans (assocInsert_length_le_of_some grid.tiles coord _ tile hl)
        hlen, rfl⟩
    · rw [if_neg hd]
      have hg2 : (assocInsert grid.tiles coord
          { tile with lastAccessed := grid.accessCounter + 1 }).length ≤
          grid.maxCachedTiles :=
        le_trans (assocInsert_length_le_of_some grid.tiles coord _ tile hl) hlen
      constructor
      · exact evictInsert_len
          ⟨assocInsert grid.tiles coord
            { tile with lastAccessed := grid.accessCounter + 1 },
            grid.maxCachedTiles, grid.accessCounter + 1⟩ coord _ hmax hg2
      · show (if (assocInsert grid.tiles coord
            { tile with lastAccessed := grid.accessCounter + 1 }).length ≥
              grid.maxCachedTiles then
            TileGrid.evictLRU ⟨assocInsert grid.tiles coord
              { tile with lastAccessed := grid.accessCounter + 1 },
              grid.maxCachedTiles, grid.accessCounter + 1⟩
          else ⟨assocInsert grid.tiles coord
            { tile with lastAccessed := grid.accessCounter + 1 },
            grid.maxCachedTiles, grid.accessCounter + 1⟩).maxCachedTiles =
          grid.maxCachedTiles
        by_cases hc : (assocInsert grid.tiles coord
            { tile with lastAccessed := grid.accessCounter + 1 }).length ≥
            grid.maxCachedTiles
        · rw [if_pos hc, evictLRU_max]
        · rw [if_neg hc]
  | none =>
    simp only [hl]
    constructor
    · exact evictInsert_len
        ⟨grid.tiles, grid.maxCachedTiles, grid.accessCounter + 1⟩ coord _
        hmax hlen
    · show (if grid.tiles.length ≥ grid.maxCachedTiles then
          TileGrid.evictLRU ⟨grid.tiles, grid.maxCachedTiles,
            grid.accessCounter + 1⟩
        else ⟨grid.tiles, grid.maxCachedTiles,
          grid.accessCounter + 1⟩).maxCachedTiles = grid.maxCachedTiles
      by_cases hc : grid.tiles.length ≥ grid.maxCachedTiles
      · rw [if_pos hc, evictLRU_max]
      · rw [if_neg hc]

theorem foldl_invariant {α β : Type} (f : β → α → β) (inv : β → Prop)
    (h : ∀ b a, inv b → inv (f b a)) :
    ∀ (l : List α) (b : β), inv b → inv (l.foldl f b) := by
  intro l
  induction l with
  | nil => intro b hb; exact hb
  | cons a rest ih => intro b hb; exact ih _ (h b a hb)

/-- Invalidation only toggles dirty flags: the number of cached tiles and the
capacity are unchanged. -/
theorem invalidateForNodes_len (grid : TileGrid) (ids : List String)
    (idx : SpatialIndex) :
    (grid.invalidateForNodes ids idx).2.tiles.length = grid.tiles.length ∧
    (grid.invalidateForNodes ids idx).2.maxCachedTiles =
      grid.maxCachedTiles := by
  rw [TileGrid.invalidateForNodes]
  refine foldl_invariant _
    (fun (acc : List TileCoord × TileGrid) =>
      acc.2.tiles.length = grid.tiles.length ∧
      acc.2.maxCachedTiles = grid.maxCachedTiles) ?_ ids ([], grid) ?_
  · intro b a hb
    cases hnb : idx.getNodeBounds a with
    | none => simpa [hnb] using hb
    | some bounds =>
      simp only [hnb]
      refine foldl_invariant _
        (fun (acc : List TileCoord × TileGrid) =>
          acc.2.tiles.length = grid.tiles.length ∧
          acc.2.maxCachedTiles = grid.maxCachedTiles) ?_
        (tilesForBounds bounds) b hb
      intro b2 coord hb2
      cases hc : assocLookup b2.2.tiles coord with
      | none => simpa [hc] using hb2
      | some t =>
        simp only [hc]
        refine ⟨?_, hb2.2⟩
        show (setDirtyAt b2.2.tiles coord).length = grid.tiles.length
        rw [setDirtyAt, List.length_map]
        exact hb2.1
  · exact ⟨rfl, rfl⟩

/-- The grid operations a host can perform on the tile cache: viewport/tile
lookups (`get_or_create_tile`), invalidation, and clearing. -/
inductive GridOp where
  | look (coord : TileCoord) (nodes : List (String × FigmaNode))
      (idx : SpatialIndex)
  | invalidate (ids : List String) (idx : SpatialIndex)
  | clear

/-- Apply one grid operation (the state change it leaves on the grid). -/
def applyOp (grid : TileGrid) : GridOp → TileGrid
  | .look coord nodes idx => (grid.getOrCreateTile coord nodes idx).2
  | .invalidate ids idx => (grid.invalidateForNodes ids idx).2
  | .clear => grid.clearTiles

/-- Apply a sequence of grid operations. -/
def applyOps (grid : TileGrid) (ops : List GridOp) : TileGrid :=
  ops.foldl applyOp grid

/-- A fresh insert at capacity evicts the minimal-`last_accessed` entry: the
explicit shape of `get_or_create_tile` on a miss when the cache is full. -/
theorem getOrCreateTile_fresh_evicts (grid : TileGrid) (coord : TileCoord)
    (nodes : List (String × FigmaNode)) (idx : SpatialIndex)
    (hmax : 1 ≤ grid.maxCachedTiles)
    (hfull : grid.maxCachedTiles ≤ grid.tiles.length)
    (hfresh : assocLookup grid.tiles coord = none) :
    ∃ victim, minByLastAccessed grid.tiles = some victim ∧
      victim ∈ grid.tiles ∧
      (∀ q ∈ grid.tiles, victim.2.lastAccessed ≤ q.2.lastAccessed) ∧
      (grid.getOrCreateTile coord nodes idx).2.tiles =
        assocInsert (grid.tiles.filter (fun q => q.1 ≠ victim.1)) coord
          (TileGrid.generateTile
            ⟨grid.tiles.filter (fun q => q.1 ≠ victim.1),
              grid.maxCachedTiles, grid.accessCounter + 1⟩ coord nodes idx) := by
  have hne : grid.tiles ≠ [] := by
    intro hnil
    rw [hnil] at hfull
    simp only [List.length_nil] at hfull
    omega
  have hs := minByLastAccessed_isSome grid.tiles hne
  cases hmb : minByLastAccessed grid.tiles with
  | none => rw [hmb] at hs; exact absurd hs (by simp)
  | some victim =>
    obtain ⟨hmem, hall, _⟩ := minByLastAccessed_go_spec grid.tiles none victim hmb
    have hmem2 : victim ∈ grid.tiles := by
      rcases hmem with hm | hm
      · exact hm
      · exact absurd hm (by simp)
    have hev : TileGrid.evictLRU
        ⟨grid.tiles, grid.maxCachedTiles, grid.accessCounter + 1⟩ =
        ⟨grid.tiles.filter (fun q => q.1 ≠ victim.1), grid.maxCachedTiles,
          grid.accessCounter + 1⟩ := by
      rw [TileGrid.evictLRU]
      simp only [hmb]
    refine ⟨victim, rfl, hmem2, hall, ?_⟩
    simp only [TileGrid.getOrCreateTile, hfresh]
    rw [if_pos hfull, hev]

/-- C7 counterexample: with capacity 0, a single lookup leaves one cached
tile — the eviction runs before the insert and cannot make room below the
insert itself, so the bound `|cache| ≤ max_cached_tiles` fails at capacity
zero. -/
theorem C7_counterexample :
    ((TileGrid.withCapacity 0).getOrCreateTile ⟨0, 0, 0⟩ []
      SpatialIndex.empty).2.tiles.length = 1 := by
  rfl

/-- C7 (amended): starting from an empty grid with capacity at least one,
after every sequence of lookups, invalidations and clears the number of
cached tiles never exceeds the capacity; and whenever the cache holds at
least `max_cached_tiles` tiles before a fresh tile is inserted, the entry
with the minimal `last_accessed` is evicted and the fresh tile stored. -/
theorem C7_cache_bound_and_lru_eviction :
    (∀ (max : Nat), 1 ≤ max → ∀ ops : List GridOp,
      (applyOps (TileGrid.withCapacity max) ops).tiles.length ≤ max) ∧
    (∀ (grid : TileGrid) (coord : TileCoord)
      (nodes : List (String × FigmaNode)) (idx : SpatialIndex),
      1 ≤ grid.maxCachedTiles →
      grid.maxCachedTiles ≤ grid.tiles.length →
      assocLookup grid.tiles coord = none →
      ∃ victim, minByLastAccessed grid.tiles = some victim ∧
        victim ∈ grid.tiles ∧
        (∀ q ∈ grid.tiles, victim.2.lastAccessed ≤ q.2.lastAccessed) ∧
        (grid.getOrCreateTile coord nodes idx).2.tiles =
          assocInsert (grid.tiles.filter (fun q => q.1 ≠ victim.1)) coord
            (TileGrid.generateTile
              ⟨grid.tiles.filter (fun q => q.1 ≠ victim.1),
                grid.maxCachedTiles, grid.accessCounter + 1⟩
              coord nodes idx)) := by
  constructor
  · intro max hmax ops
    have h := foldl_invariant applyOp
      (fun (g : TileGrid) => g.tiles.length ≤ max ∧ g.maxCachedTiles = max)
      ?_ ops (TileGrid.withCapacity max) ?_
    · exact h.1
    · intro g op hg
      cases op with
      | look coord nodes idx =>
        obtain ⟨h1, h2⟩ := getOrCreateTile_len g coord nodes idx
          (hg.2 ▸ hmax) (hg.2 ▸ hg.1)
        exact ⟨hg.2 ▸ h1, hg.2 ▸ h2⟩
      | invalidate ids idx =>
        obtain ⟨h1, h2⟩ := invalidateForNodes_len g ids idx
        exact ⟨h1 ▸ hg.1, h2 ▸ hg.2⟩
      | clear =>
        exact ⟨Nat.zero_le max, hg.2⟩
    · exact ⟨Nat.zero_le max, rfl⟩
  · intro grid coord nodes idx hmax hfull hfresh
    exact getOrCreateTile_fresh_evicts grid coord nodes idx hmax hfull hfresh

/-- The cached tile of the C7 witness grid. -/
def c7tile : Tile :=
  ⟨⟨0, 0, 0⟩, ⟨0, 0, 0, 0, [0, 0, 0, 0]⟩, [], [], false, 3⟩

/-- A full grid of capacity one, for the C7 witness. -/
def c7grid : TileGrid := ⟨[(⟨0, 0, 0⟩, c7tile)], 1, 3⟩

/-- C7 witness: the bound applied at capacity one after one lookup, and the
eviction shape applied at the concrete full grid and a fresh coordinate. -/
theorem C7_witness :
    (applyOps (TileGrid.withCapacity 1)
      [GridOp.look ⟨0, 0, 0⟩ [] SpatialIndex.empty]).tiles.length ≤ 1 ∧
    (∃ victim, minByLastAccessed c7grid.tiles = some victim ∧
      victim ∈ c7grid.tiles ∧
      (∀ q ∈ c7grid.tiles, victim.2.lastAccessed ≤ q.2.lastAccessed) ∧
      (c7grid.getOrCreateTile ⟨1, 0, 0⟩ [] SpatialIndex.empty).2.tiles =
        assocInsert (c7grid.tiles.filter (fun q => q.1 ≠ victim.1)) ⟨1, 0, 0⟩
          (TileGrid.generateTile
            ⟨c7grid.tiles.filter (fun q => q.1 ≠ victim.1),
              c7grid.maxCachedTiles, c7grid.accessCounter + 1⟩
            ⟨1, 0, 0⟩ [] SpatialIndex.empty)) :=
  ⟨C7_cache_bound_and_lru_eviction.1 1 (by decide)
      [GridOp.look ⟨0, 0, 0⟩ [] SpatialIndex.empty],
    C7_cache_bound_and_lru_eviction.2 c7grid ⟨1, 0, 0⟩ [] SpatialIndex.empty
      (by decide) (by decide) rfl⟩

/-- The document handle (api.rs `FigmaDocument`): the immutable node map, the
lazily built spatial index, and the tile grid. The reader-writer locks of
the source serialize access; the embedding is the synchronous state they
protect (the unused render-tree slot is omitted). -/
structure FigmaDocument where
  nodes : List (String × FigmaNode)
  spatialIndex : Option SpatialIndex
  tileGrid : TileGrid

/-- Result of rendering one tile (api.rs `TileRenderResult`). -/
structure TileRenderResult where
  coord : TileCoord
  bounds : RectInfo
  commands : List DrawCommand
  nodeCount : Nat
  fromCache : Bool

/-- `init_spatial_index` (api.rs): build from the node map and a root id and
install; returns the leaf count. Fuel bounds the build's recursion depth. -/
def initSpatialIndex (doc : FigmaDocument) (rootId : String) (fuel : Nat) :
    Nat × FigmaDocument :=
  let index := buildWithAbsoluteCoords doc.nodes rootId fuel
  (index.entries.length, { doc with spatialIndex := some index })

/-- The lazy-initialization prologue of `render_tiles` and
`render_single_tile` (api.rs): build the spatial index when absent. -/
def ensureSpatialIndex (doc : FigmaDocument) (rootId : String) (fuel : Nat) :
    FigmaDocument :=
  match doc.spatialIndex with
  | some _ => doc
  | none => (initSpatialIndex doc rootId fuel).2

/-- `render_single_tile` (api.rs): ensure the index, run
`get_or_create_tile`, and report the tile with
`from_cache = !tile.dirty` evaluated on the returned tile. -/
def renderSingleTile (fuel : Nat) (doc : FigmaDocument) (rootId : String)
    (coord : TileCoord) : Except FigmaError (TileRenderResult × FigmaDocument) :=
  let doc2 := ensureSpatialIndex doc rootId fuel
  match doc2.spatialIndex with
  | none => .error (.DecodeError "Spatial index not initialized")
  | some idx =>
    let pr := doc2.tileGrid.getOrCreateTile coord doc2.nodes idx
    .ok (⟨pr.1.coord, pr.1.bounds, pr.1.commands, pr.1.nodeIds.length,
      !pr.1.dirty⟩, { doc2 with tileGrid := pr.2 })

/-- `render_tiles` (api.rs): ensure the index, enumerate the visible coords,
and render each through `get_or_create_tile`, threading the grid. -/
def renderTiles (fuel : Nat) (doc : FigmaDocument) (rootId : String)
    (viewport : Viewport) :
    Except FigmaError (List TileRenderResult × FigmaDocument) :=
  let doc2 := ensureSpatialIndex doc rootId fuel
  match doc2.spatialIndex with
  | none => .error (.DecodeError "Spatial index not initialized")
  | some idx =>
    let acc := (getVisibleTiles viewport).foldl
      (fun (acc : List TileRenderResult × TileGrid) coord =>
        let pr := acc.2.getOrCreateTile coord doc2.nodes idx
        (acc.1 ++ [⟨pr.1.coord, pr.1.bounds, pr.1.commands,
          pr.1.nodeIds.length, !pr.1.dirty⟩], pr.2))
      ([], doc2.tileGrid)
    .ok (acc.1, { doc2 with tileGrid := acc.2 })

/-- The tile returned by `get_or_create_tile` is never dirty: a clean hit is
returned as is, and both the dirty-hit and the miss paths return the freshly
generated tile, whose `dirty` is `false`. -/
theorem getOrCreateTile_dirty_false (grid : TileGrid) (coord : TileCoord)
    (nodes : List (String × FigmaNode)) (idx : SpatialIndex) :
    (grid.getOrCreateTile coord nodes idx).1.dirty = false := by
  simp only [TileGrid.getOrCreateTile]
  cases hl : assocLookup grid.tiles coord with
  | some tile =>
    simp only [hl]
    by_cases hd : tile.dirty = false
    · rw [if_pos hd]
      exact hd
    · rw [if_neg hd]
      rfl
  | none =>
    simp only [hl]
    rfl

/-- C1: contrary to the claim, `from_cache` is `true` in every result of
`render_single_tile` and `render_tiles` — the flag is computed as
`!tile.dirty` on the tile returned by `get_or_create_tile`, which is never
dirty (a regenerated or first-time tile is stored with `dirty = false`), so
a freshly generated tile is also reported as `from_cache = true`. -/
theorem C1_from_cache_always_true :
    (∀ (fuel : Nat) (doc : FigmaDocument) (rootId : String) (coord : TileCoord)
      (res : TileRenderResult) (doc2 : FigmaDocument),
      renderSingleTile fuel doc rootId coord = .ok (res, doc2) →
      res.fromCache = true) ∧
    (∀ (fuel : Nat) (doc : FigmaDocument) (rootId : String)
      (viewport : Viewport) (results : List TileRenderResult)
      (doc2 : FigmaDocument),
      renderTiles fuel doc rootId viewport = .ok (results, doc2) →
      ∀ r ∈ results, r.fromCache = true) := by
  constructor
  · intro fuel doc rootId coord res doc2 h
    rw [renderSingleTile] at h
    cases hidx : (ensureSpatialIndex doc rootId fuel).spatialIndex with
    | none => rw [hidx] at h; exact absurd h (by simp)
    | some idx =>
      rw [hidx] at h
      simp only [Except.ok.injEq, Prod.mk.injEq] at h
      have hres := h.1
      rw [← hres]
      simp only [getOrCreateTile_dirty_false]
      rfl
  · intro fuel doc rootId viewport results doc2 h
    rw [renderTiles] at h
    cases hidx : (ensureSpatialIndex doc rootId fuel).spatialIndex with
    | none => rw [hidx] at h; exact absurd h (by simp)
    | some idx =>
      rw [hidx] at h
      simp only [Except.ok.injEq, Prod.mk.injEq] at h
      have hres := h.1
      have hinv := foldl_invariant
        (fun (acc : List TileRenderResult × TileGrid) coord =>
          let pr := acc.2.getOrCreateTile coord
            (ensureSpatialIndex doc rootId fuel).nodes idx
          (acc.1 ++ [⟨pr.1.coord, pr.1.bounds, pr.1.commands,
            pr.1.nodeIds.length, !pr.1.dirty⟩], pr.2))
        (fun (acc : List TileRenderResult × TileGrid) =>
          ∀ r ∈ acc.1, r.fromCache = true)
        ?_ (getVisibleTiles viewport)
        ([], (ensureSpatialIndex doc rootId fuel).tileGrid)
        ?_
      · rw [← hres]
        exact hinv
      · intro b a hb
        intro r hr
        rcases List.mem_append.mp hr with hr1 | hr2
        · exact hb r hr1
        · rw [List.mem_singleton] at hr2
          rw [hr2]
          simp only [getOrCreateTile_dirty_false]
          rfl
      · intro r hr
        exact absurd hr (List.not_mem_nil r)

/-- A freshly loaded empty document, for the C1 witness. -/
def c1doc : FigmaDocument := ⟨[], none, TileGrid.mkNew⟩

/-- C1 witness: on a fresh document with an empty cache, the very first
`render_single_tile` — which generates the tile for the first time — is
reported with `from_cache = true`. -/
theorem C1_witness :
    ∃ res doc2, renderSingleTile 1 c1doc "1:1" ⟨0, 0, 0⟩ = .ok (res, doc2) ∧
      res.fromCache = true := by
  refine ⟨_, _, rfl, ?_⟩
  exact C1_from_cache_always_true.1 1 c1doc "1:1" ⟨0, 0, 0⟩ _ _ rfl

theorem getElem?_append_middle (pre rest : List Nat) (b : Nat) :
    (pre ++ (b :: rest))[pre.length]? = some b := by
  rw [List.getElem?_append_right le_rfl]
  simp

theorem getD_append_head (pre rest : List Nat) (b d : Nat) :
    (pre ++ (b :: rest)).getD pre.length d = b := by
  rw [List.getD, List.get?_eq_getElem?, getElem?_append_middle]
  rfl

theorem getD_append_plus (pre rest : List Nat) (k d : Nat)
    (_h : k < rest.length) :
    (pre ++ rest).getD (pre.length + k) d = rest.getD k d := by
  rw [List.getD, List.getD, List.get?_eq_getElem?, List.get?_eq_getElem?,
    List.getElem?_append_right (Nat.le_add_right pre.length k),
    Nat.add_sub_cancel_left]

/-- A well-formed kiwi float encoding: either the single zero byte or four
bytes with a nonzero first byte — exactly the shapes `read_float_at`
accepts. -/
inductive KwFloatE where
  | zero
  | full (b0 b1 b2 b3 : Nat) (h : b0 ≠ 0)

/-- The bytes of an encoded float. -/
def KwFloatE.bytes : KwFloatE → List Nat
  | .zero => [0]
  | .full b0 b1 b2 b3 _ => [b0, b1, b2, b3]

/-- The bit pattern `read_float_at` decodes from an encoded float. -/
def KwFloatE.bits : KwFloatE → Nat
  | .zero => 0
  | .full b0 b1 b2 b3 _ =>
    let w := ((b0 <<< 24) ||| (b1 <<< 16) ||| (b2 <<< 8) ||| b3) % 2 ^ 32
    ((w <<< 23) ||| (w >>> 9)) % 2 ^ 32

theorem KwFloatE.kwBytesLenPos (f : KwFloatE) : 0 < f.bytes.length := by
  cases f <;> simp [KwFloatE.bytes]

/-- Reading a float at the start of its encoding inside a larger buffer
succeeds with the decoded bits and consumes exactly the encoding. -/
theorem readFloatAt_encoded (pre rest : List Nat) (f : KwFloatE) :
    readFloatAt (pre ++ (f.bytes ++ rest)) pre.length =
      .ok (f.bits, pre.length + f.bytes.length) := by
  cases f with
  | zero =>
    rw [readFloatAt]
    simp only [KwFloatE.bytes, List.cons_append, List.nil_append,
      getElem?_append_middle]
    simp [KwFloatE.bits]
  | full b0 b1 b2 b3 h0 =>
    rw [readFloatAt]
    simp only [KwFloatE.bytes, List.cons_append, List.nil_append,
      getElem?_append_middle]
    rw [if_neg h0]
    rw [if_neg (by simp only [List.length_append, List.length_cons]; omega)]
    rw [show (pre ++ b0 :: b1 :: b2 :: b3 :: rest).getD (pre.length + 1) 0 =
      b1 from getD_append_plus pre _ 1 0 (by simp)]
    rw [show (pre ++ b0 :: b1 :: b2 :: b3 :: rest).getD (pre.length + 2) 0 =
      b2 from getD_append_plus pre _ 2 0 (by simp)]
    rw [show (pre ++ b0 :: b1 :: b2 :: b3 :: rest).getD (pre.length + 3) 0 =
      b3 from getD_append_plus pre _ 3 0 (by simp)]
    rfl

/-- Reading a run of encoded floats decodes their bit patterns in order and
consumes exactly their bytes. -/
theorem readFloatsN_encoded (fs : List KwFloatE) :
    ∀ (pre rest : List Nat),
      readFloatsN (pre ++ (fs.flatMap KwFloatE.bytes ++ rest)) fs.length
        pre.length =
      .ok (fs.map KwFloatE.bits,
        pre.length + (fs.flatMap KwFloatE.bytes).length) := by
  induction fs with
  | nil =>
    intro pre rest
    simp [readFloatsN]
  | cons f fs ih =>
    intro pre rest
    simp only [List.flatMap_cons, List.length_cons]
    rw [readFloatsN]
    have h1 : pre ++ ((f.bytes ++ fs.flatMap KwFloatE.bytes) ++ rest) =
        pre ++ (f.bytes ++ (fs.flatMap KwFloatE.bytes ++ rest)) := by
      simp [List.append_assoc]
    rw [h1]
    simp only [readFloatAt_encoded]
    have h2 : pre ++ (f.bytes ++ (fs.flatMap KwFloatE.bytes ++ rest)) =
        (pre ++ f.bytes) ++ (fs.flatMap KwFloatE.bytes ++ rest) :=
      (List.append_assoc _ _ _).symm
    rw [h2, show pre.length + f.bytes.length = (pre ++ f.bytes).length by
      simp [List.length_append]]
    simp only [ih (pre ++ f.bytes) rest]
    simp [List.length_append, Nat.add_assoc]

/-- Plain string concatenation of a list, the model of the accumulated
`format!` pushes in `decode_vector_data`. -/
def strConcat : List String → String
  | [] => ""
  | s :: rest => s ++ strConcat rest

/-- A completely encoded vector command: opcode byte plus fully encoded
float arguments (no end opcode). -/
inductive EncVecCmd where
  | move (x y : KwFloatE)
  | line (x y : KwFloatE)
  | cubic (x1 y1 x2 y2 x y : KwFloatE)
  | quad (x1 y1 x y : KwFloatE)
  | close

/-- The bytes of an encoded vector command. -/
def EncVecCmd.bytes : EncVecCmd → List Nat
  | .move x y => 1 :: (x.bytes ++ y.bytes)
  | .line x y => 2 :: (x.bytes ++ y.bytes)
  | .cubic x1 y1 x2 y2 x y =>
    3 :: (x1.bytes ++ (y1.bytes ++ (x2.bytes ++ (y2.bytes ++
      (x.bytes ++ y.bytes)))))
  | .quad x1 y1 x y => 4 :: (x1.bytes ++ (y1.bytes ++ (x.bytes ++ y.bytes)))
  | .close => [5]

/-- The token group `decode_vector_data` emits for an encoded command. -/
def EncVecCmd.render : EncVecCmd → String
  | .move x y => emitCmd "M" [x.bits, y.bits]
  | .line x y => emitCmd "L" [x.bits, y.bits]
  | .cubic x1 y1 x2 y2 x y =>
    emitCmd "C" [x1.bits, y1.bits, x2.bits, y2.bits, x.bits, y.bits]
  | .quad x1 y1 x y => emitCmd "Q" [x1.bits, y1.bits, x.bits, y.bits]
  | .close => "Z "

theorem EncVecCmd.vcBytesLenPos (c : EncVecCmd) : 0 < c.bytes.length := by
  cases c <;> simp [EncVecCmd.bytes]

theorem length_le_flatMap_bytes (cmds : List EncVecCmd) :
    cmds.length ≤ (cmds.flatMap EncVecCmd.bytes).length := by
  induction cmds with
  | nil => simp
  | cons c rest ih =>
    simp only [List.flatMap_cons, List.length_cons, List.length_append]
    have := c.vcBytesLenPos
    omega

/-- Running the command loop over completely encoded commands renders them
all, whether the stream ends at the end of the data (`tailB = []`) or at an
explicit end opcode (`tailB = [0]`), with the same result. -/
theorem vecLoop_encoded :
    ∀ (cmds : List EncVecCmd) (fuel : Nat) (pre tailB : List Nat)
      (acc : String), cmds.length ≤ fuel → (tailB = [] ∨ tailB = [0]) →
      vecLoop (pre ++ (cmds.flatMap EncVecCmd.bytes ++ tailB)) fuel
        pre.length acc =
      .ok (acc ++ strConcat (cmds.map EncVecCmd.render)) := by
  intro cmds
  induction cmds with
  | nil =>
    intro fuel pre tailB acc hfuel htail
    simp only [List.flatMap_nil, List.nil_append, List.map_nil]
    rw [show strConcat [] = "" from rfl, String.append_empty]
    cases fuel with
    | zero => rfl
    | succ f =>
      rw [vecLoop]
      rcases htail with rfl | rfl
      · rw [if_neg (by simp)]
      · rw [if_pos (by
          simp only [List.length_append, List.length_cons, List.length_nil]
          omega)]
        rw [getD_append_head]
  | cons c rest ihc =>
    intro fuel pre tailB acc hfuel htail
    cases fuel with
    | zero =>
      rw [List.length_cons] at hfuel
      omega
    | succ f =>
      have hfuel2 : rest.length ≤ f := by
        rw [List.length_cons] at hfuel
        omega
      cases c with
      | move x y =>
        simp only [List.flatMap_cons, EncVecCmd.bytes, List.cons_append,
          List.append_assoc]
        rw [vecLoop]
        rw [if_pos (by
          simp only [List.length_append, List.length_cons]
          omega)]
        rw [getD_append_head]
        dsimp only
        have hread := readFloatsN_encoded [x, y] (pre ++ [1])
          ((rest.flatMap EncVecCmd.bytes) ++ tailB)
        simp only [List.flatMap_cons, List.flatMap_nil, List.append_nil,
          List.length_cons, List.length_append, List.length_nil,
          List.cons_append, List.nil_append, List.append_assoc,
          List.map_cons, List.map_nil] at hread
        simp only [hread]
        have hpos : pre.length + 1 + (x.bytes.length + y.bytes.length) =
            (pre ++ 1 :: (x.bytes ++ y.bytes)).length := by
          simp only [List.length_append, List.length_cons]
          omega
        rw [hpos]
        have hIH := ihc f (pre ++ 1 :: (x.bytes ++ y.bytes)) tailB
          (acc ++ EncVecCmd.render (.move x y)) hfuel2 htail
        simp only [EncVecCmd.render, List.cons_append, List.append_assoc] at hIH
        rw [hIH]
        simp only [List.map_cons, strConcat, EncVecCmd.render,
          String.append_assoc]
      | line x y =>
        simp only [List.flatMap_cons, EncVecCmd.bytes, List.cons_append,
          List.append_assoc]
        rw [vecLoop]
        rw [if_pos (by
          simp only [List.length_append, List.length_cons]
          omega)]
        rw [getD_append_head]
        dsimp only
        have hread := readFloatsN_encoded [x, y] (pre ++ [2])
          ((rest.flatMap EncVecCmd.bytes) ++ tailB)
        simp only [List.flatMap_cons, List.flatMap_nil, List.append_nil,
          List.length_cons, List.length_append, List.length_nil,
          List.cons_append, List.nil_append, List.append_assoc,
          List.map_cons, List.map_nil] at hread
        simp only [hread]
        have hpos : pre.length + 1 + (x.bytes.length + y.bytes.length) =
            (pre ++ 2 :: (x.bytes ++ y.bytes)).length := by
          simp only [List.length_append, List.length_cons]
          omega
        rw [hpos]
        have hIH := ihc f (pre ++ 2 :: (x.bytes ++ y.bytes)) tailB
          (acc ++ EncVecCmd.render (.line x y)) hfuel2 htail
        simp only [EncVecCmd.render, List.cons_append, List.append_assoc] at hIH
        rw [hIH]
        simp only [List.map_cons, strConcat, EncVecCmd.render,
          String.append_assoc]
      | cubic x1 y1 x2 y2 x y =>
        simp only [List.flatMap_cons, EncVecCmd.bytes, List.cons_append,
          List.append_assoc]
        rw [vecLoop]
        rw [if_pos (by
          simp only [List.length_append, List.length_cons]
          omega)]
        rw [getD_append_head]
        dsimp only
        have hread := readFloatsN_encoded [x1, y1, x2, y2, x, y] (pre ++ [3])
          ((rest.flatMap EncVecCmd.bytes) ++ tailB)
        simp only [List.flatMap_cons, List.flatMap_nil, List.append_nil,
          List.length_cons, List.length_append, List.length_nil,
          List.cons_append, List.nil_append, List.append_assoc,
          List.map_cons, List.map_nil] at hread
        simp only [hread]
        have hpos : pre.length + 1 + (x1.bytes.length + (y1.bytes.length +
            (x2.bytes.length + (y2.bytes.length +
              (x.bytes.length + y.bytes.length))))) =
            (pre ++ 3 :: (x1.bytes ++ (y1.bytes ++ (x2.bytes ++ (y2.bytes ++
              (x.bytes ++ y.bytes)))))).length := by
          simp only [List.length_append, List.length_cons]
          omega
        rw [hpos]
        have hIH := ihc f (pre ++ 3 :: (x1.bytes ++ (y1.bytes ++ (x2.bytes ++
          (y2.bytes ++ (x.bytes ++ y.bytes)))))) tailB
          (acc ++ EncVecCmd.render (.cubic x1 y1 x2 y2 x y)) hfuel2 htail
        simp only [EncVecCmd.render, List.cons_append, List.append_assoc] at hIH
        rw [hIH]
        simp only [List.map_cons, strConcat, EncVecCmd.render,
          String.append_assoc]
      | quad x1 y1 x y =>
        simp only [List.flatMap_cons, EncVecCmd.bytes, List.cons_append,
          List.append_assoc]
        rw [vecLoop]
        rw [if_pos (by
          simp only [List.length_append, List.length_cons]
          omega)]
        rw [getD_append_head]
        dsimp only
        have hread := readFloatsN_encoded [x1, y1, x, y] (pre ++ [4])
          ((rest.flatMap EncVecCmd.bytes) ++ tailB)
        simp only [List.flatMap_cons, List.flatMap_nil, List.append_nil,
          List.length_cons, List.length_append, List.length_nil,
          List.cons_append, List.nil_append, List.append_assoc,
          List.map_cons, List.map_nil] at hread
        simp only [hread]
        have hpos : pre.length + 1 + (x1.bytes.length + (y1.bytes.length +
            (x.bytes.length + y.bytes.length))) =
            (pre ++ 4 :: (x1.bytes ++ (y1.bytes ++ (x.bytes ++
              y.bytes)))).length := by
          simp only [List.length_append, List.length_cons]
          omega
        rw [hpos]
        have hIH := ihc f (pre ++ 4 :: (x1.bytes ++ (y1.bytes ++ (x.bytes ++
          y.bytes)))) tailB
          (acc ++ EncVecCmd.render (.quad x1 y1 x y)) hfuel2 htail
        simp only [EncVecCmd.render, List.cons_append, List.append_assoc] at hIH
        rw [hIH]
        simp only [List.map_cons, strConcat, EncVecCmd.render,
          String.append_assoc]
      | close =>
        simp only [List.flatMap_cons, EncVecCmd.bytes, List.cons_append,
          List.nil_append, List.append_assoc]
        rw [vecLoop]
        rw [if_pos (by
          simp only [List.length_append, List.length_cons]
          omega)]
        rw [getD_append_head]
        dsimp only
        have hpos : pre.length + 1 = (pre ++ [5]).length := by
          simp only [List.length_append, List.length_cons, List.length_nil]
        rw [hpos]
        have hIH := ihc f (pre ++ [5]) tailB (acc ++ "Z ") hfuel2 htail
        simp only [List.cons_append, List.append_assoc, List.nil_append] at hIH
        rw [hIH]
        simp only [List.map_cons, strConcat, EncVecCmd.render,
          String.append_assoc]

/-- C10: for every vector blob made of a fill-rule byte and completely
encoded commands with no explicit end opcode, `decode_vector_data` returns
exactly what it returns when the end opcode is appended — reaching the end
of the data is treated the same as an end opcode — decoding all the encoded
commands and still honoring the fill rule from the first byte. -/
theorem C10_end_of_data_equals_end_opcode (rule : Nat) (cmds : List EncVecCmd) :
    decodeVectorData (rule :: cmds.flatMap EncVecCmd.bytes) =
      decodeVectorData (rule :: (cmds.flatMap EncVecCmd.bytes ++ [0])) ∧
    decodeVectorData (rule :: cmds.flatMap EncVecCmd.bytes) =
      .ok ⟨(strConcat (cmds.map EncVecCmd.render)).trim,
        if rule = 1 then "evenodd" else "nonzero"⟩ := by
  have hv1 := vecLoop_encoded cmds
    ((rule :: cmds.flatMap EncVecCmd.bytes).length) [rule] [] ""
    (by
      have := length_le_flatMap_bytes cmds
      simp only [List.length_cons]
      omega)
    (Or.inl rfl)
  simp only [List.append_nil, List.cons_append, List.nil_append,
    List.length_cons, List.length_nil, Nat.zero_add] at hv1
  have hv2 := vecLoop_encoded cmds
    ((rule :: (cmds.flatMap EncVecCmd.bytes ++ [0])).length) [rule] [0] ""
    (by
      have := length_le_flatMap_bytes cmds
      simp only [List.length_cons, List.length_append, List.length_nil]
      omega)
    (Or.inr rfl)
  simp only [List.cons_append, List.nil_append, List.length_cons,
    List.length_nil, Nat.zero_add] at hv2
  have hA : decodeVectorData (rule :: cmds.flatMap EncVecCmd.bytes) =
      .ok ⟨(strConcat (cmds.map EncVecCmd.render)).trim,
        if rule = 1 then "evenodd" else "nonzero"⟩ := by
    rw [decodeVectorData, if_neg (by simp)]
    dsimp only
    simp only [List.length_cons, hv1, String.empty_append, List.getD_cons_zero]
  have hB : decodeVectorData (rule :: (cmds.flatMap EncVecCmd.bytes ++ [0])) =
      .ok ⟨(strConcat (cmds.map EncVecCmd.render)).trim,
        if rule = 1 then "evenodd" else "nonzero"⟩ := by
    rw [decodeVectorData, if_neg (by simp)]
    dsimp only
    simp only [List.length_cons, hv2, String.empty_append, List.getD_cons_zero]
  exact ⟨hA.trans hB.symm, hA⟩
